import Mathlib

/-!
Shallow embedding of the plateify layout core (TypeScript sources under
`src/src/layout/`) and proofs about the frozen specification claims.

Modelling conventions:
* JavaScript IEEE doubles used for temperatures, costs and RNG outputs are
  modelled by `ℚ` (the claims under study are about control flow, exact
  recurrences and decompositions, not float rounding).
* The xorshift RNG seed is stored as the unsigned 32-bit pattern of the
  JS `| 0` int32 value, as a `Nat` below `2^32`.
* `Math.exp` is threaded through as an explicit function parameter `mexp`.
* The one unbounded `while` loop of the engine (re-drawing a distinct swap
  index) is modelled with an explicit fuel argument, large enough that the
  fuel is never exhausted for any draw that terminates in the source.
-/

namespace Engine

/-- `engine.ts` `CostBreakdown`: a total plus a named component map. -/
structure CostBreakdown where
  total : ℚ
  components : List (String × ℚ)
deriving DecidableEq, Inhabited

/-- `engine.ts` `AnnealRngState`: the unsigned 32-bit pattern of the seed. -/
structure AnnealRngState where
  seed : Nat
deriving DecidableEq, Inhabited

/-- `engine.ts` `AnnealProblem`.  Optional numeric fields become `Option`. -/
structure AnnealProblem where
  initialLayout : List Int
  evaluateCost : List Int → CostBreakdown
  maxNudgeStep : Option Nat := none
  initialTemperature : Option ℚ := none
  coolingRate : Option ℚ := none
  minTemperature : Option ℚ := none
  transitionBufferSize : Option Nat := none
  captureFullTrace : Bool := false
  enableBlockShift : Bool := false

/-- The four move tags of the `AnnealMove` union in `engine.ts`. -/
inductive MoveTag where
  | nudge
  | swap
  | reinsert
  | blockShift
deriving DecidableEq

/-- Payload of one `AnnealMove` variant (`engine.ts` lines 49-70).
`fromIdx`/`toIdx` and `endIdx` stand for the source's `from`/`to`/`end`,
which are Lean keywords. -/
inductive AnnealMoveKind where
  | nudge (index : Nat) (delta : Int)
  | swap (a b : Nat)
  | reinsert (fromIdx toIdx : Nat)
  | blockShift (start endIdx : Nat) (shift : Int)
deriving DecidableEq, Inhabited

/-- An `AnnealMove`: each union variant of the source carries
`rngStateAfterProposal`; we factor it out next to the variant payload. -/
structure AnnealMove where
  kind : AnnealMoveKind
  rngStateAfterProposal : AnnealRngState
deriving DecidableEq, Inhabited

/-- `engine.ts` `AnnealStateSnapshot`. -/
structure AnnealStateSnapshot where
  iteration : Nat
  temperature : ℚ
  layout : List Int
  costBreakdown : CostBreakdown
  rngState : AnnealRngState
deriving DecidableEq, Inhabited

/-- Acceptance reasons of `engine.ts` `AnnealTransition.reason`. -/
inductive AcceptReason where
  | improved
  | equal
  | metropolis
  | rejected
deriving DecidableEq, Inhabited

/-- `engine.ts` `AnnealTransition`. -/
structure AnnealTransition where
  proposal : AnnealMove
  deltaCost : ℚ
  accepted : Bool
  reason : AcceptReason
  before : AnnealStateSnapshot
  after : AnnealStateSnapshot
deriving DecidableEq, Inhabited

/-- `engine.ts` `TransitionRingBuffer`; `new Array(capacity)` is a list of
`capacity` empty (`none`) slots. -/
structure TransitionRingBuffer where
  capacity : Nat
  head : Nat
  size : Nat
  entries : List (Option AnnealTransition)
deriving DecidableEq

/-- `engine.ts` `AnnealState`. -/
structure AnnealState extends AnnealStateSnapshot where
  problem : AnnealProblem
  transitionBuffer : TransitionRingBuffer
  fullTraceEnabled : Bool
  fullTrace : List AnnealTransition

def DEFAULT_INITIAL_TEMPERATURE : ℚ := 10
def DEFAULT_COOLING_RATE : ℚ := 0.995
def DEFAULT_MIN_TEMPERATURE : ℚ := 0.0001
def DEFAULT_TRANSITION_BUFFER_SIZE : Nat := 256

/-- `engine.ts` `sanitizeSeed`: `seed | 0` keeps the int32 pattern, and a
zero pattern is remapped to `0x6d2b79f5`. -/
def sanitizeSeed (seed : Int) : Nat :=
  let n := (seed % 4294967296).toNat
  if n = 0 then 0x6d2b79f5 else n

/-- `engine.ts` `nextRng`: one xorshift32 draw.  Shifts are truncated to 32
bits exactly as the JS int32 operators do; the returned value is
`(seed >>> 0) / 2^32`. -/
def nextRng (state : AnnealRngState) : ℚ × AnnealRngState :=
  let x0 := state.seed % 4294967296
  let x1 := x0 ^^^ ((x0 <<< 13) % 4294967296)
  let x2 := x1 ^^^ (x1 >>> 17)
  let x3 := x2 ^^^ ((x2 <<< 5) % 4294967296)
  let nextState : AnnealRngState := ⟨sanitizeSeed (x3 : Int)⟩
  (((nextState.seed : ℚ) / 4294967296), nextState)

/-- `engine.ts` `randInt`. -/
def randInt (maxExclusive : Nat) (rngState : AnnealRngState) : Nat × AnnealRngState :=
  if maxExclusive = 0 then (0, rngState)
  else
    let ur := nextRng rngState
    ((⌊ur.1 * (maxExclusive : ℚ)⌋).toNat, ur.2)

/-- `engine.ts` `cloneSnapshot` (deep copy = identity under value semantics,
written out field by field as the source does). -/
def cloneSnapshot (state : AnnealStateSnapshot) : AnnealStateSnapshot :=
  ⟨state.iteration, state.temperature, state.layout, state.costBreakdown, state.rngState⟩

/-- `engine.ts` `cool`. -/
def cool (problem : AnnealProblem) (temperature : ℚ) : ℚ :=
  let coolingRate := problem.coolingRate.getD DEFAULT_COOLING_RATE
  let minTemperature := problem.minTemperature.getD DEFAULT_MIN_TEMPERATURE
  max minTemperature (temperature * coolingRate)

/-- `engine.ts` `makeRingBuffer`. -/
def makeRingBuffer (capacity : Nat) : TransitionRingBuffer :=
  ⟨capacity, 0, 0, List.replicate capacity none⟩

/-- `engine.ts` `appendTransition`. -/
def appendTransition (state : AnnealState) (transition : AnnealTransition) : AnnealState :=
  let ring := state.transitionBuffer
  let nextEntries := ring.entries.set ring.head (some transition)
  let nextRing : TransitionRingBuffer :=
    ⟨ring.capacity, (ring.head + 1) % ring.capacity, min (ring.size + 1) ring.capacity, nextEntries⟩
  let nextTrace := if state.fullTraceEnabled then state.fullTrace ++ [transition] else state.fullTrace
  { state with transitionBuffer := nextRing, fullTrace := nextTrace }

/-- The ring-buffer part of `appendTransition` (the `nextRing` record of
the source), split out so the buffer evolution can be traced one appended
transition at a time. -/
def ringAppend (ring : TransitionRingBuffer) (transition : AnnealTransition) :
    TransitionRingBuffer :=
  ⟨ring.capacity, (ring.head + 1) % ring.capacity, min (ring.size + 1) ring.capacity,
    ring.entries.set ring.head (some transition)⟩

/-- `engine.ts` `initializeAnneal`. -/
def initializeAnneal (problem : AnnealProblem) (seed : Int) : AnnealState :=
  let layout := problem.initialLayout
  let costBreakdown := problem.evaluateCost layout
  let bufferSize := max 1 (problem.transitionBufferSize.getD DEFAULT_TRANSITION_BUFFER_SIZE)
  { iteration := 0
    temperature := max (problem.initialTemperature.getD DEFAULT_INITIAL_TEMPERATURE) 0
    layout := layout
    costBreakdown := costBreakdown
    rngState := ⟨sanitizeSeed seed⟩
    problem := problem
    transitionBuffer := makeRingBuffer bufferSize
    fullTraceEnabled := problem.captureFullTrace
    fullTrace := [] }

/-- Fuel bound for the swap re-draw `while` loop of `proposeMove`; large
enough that it is never exhausted on a terminating source run. -/
def SWAP_RESAMPLE_FUEL : Nat := 4294967296

/-- The `while (b === a)` re-draw loop of `proposeMove`, with fuel. -/
def resampleSwapIndex (len a : Nat) : Nat → Nat × AnnealRngState → Nat × AnnealRngState
  | 0, br => br
  | fuel + 1, (b, rng) =>
      if b = a then resampleSwapIndex len a fuel (randInt len rng) else (b, rng)

/-- `engine.ts` `proposeMove`. -/
def proposeMove (state : AnnealState) : AnnealMove :=
  let layout := state.layout
  let problem := state.problem
  let rng0 := state.rngState
  let options : List MoveTag :=
    [MoveTag.nudge, MoveTag.swap, MoveTag.reinsert] ++
      (if problem.enableBlockShift then [MoveTag.blockShift] else [])
  let mi := randInt options.length rng0
  let moveType := options.getD mi.1 MoveTag.nudge
  let rng1 := mi.2
  match moveType with
  | MoveTag.swap =>
      let ar := randInt layout.length rng1
      let br := randInt layout.length ar.2
      let bb :=
        if layout.length > 1 then resampleSwapIndex layout.length ar.1 SWAP_RESAMPLE_FUEL br
        else br
      ⟨AnnealMoveKind.swap ar.1 bb.1, bb.2⟩
  | MoveTag.reinsert =>
      let fr := randInt layout.length rng1
      let tr := randInt layout.length fr.2
      ⟨AnnealMoveKind.reinsert fr.1 tr.1, tr.2⟩
  | MoveTag.blockShift =>
      let sr := randInt layout.length rng1
      let er := randInt layout.length sr.2
      let start := min sr.1 er.1
      let stop := max sr.1 er.1
      let shr := randInt 3 er.2
      ⟨AnnealMoveKind.blockShift start stop ((shr.1 : Int) - 1), shr.2⟩
  | MoveTag.nudge =>
      let ir := randInt layout.length rng1
      let stepMax := max 1 (problem.maxNudgeStep.getD 1)
      let dr := randInt stepMax ir.2
      let sr := randInt 2 dr.2
      let delta : Int := ((dr.1 : Int) + 1) * (if sr.1 = 0 then -1 else 1)
      ⟨AnnealMoveKind.nudge ir.1 delta, sr.2⟩

/-- `engine.ts` `applyMove`.  Out-of-range indices for `nudge`/`swap`/
`reinsert` are unreachable from `proposeMove`; the in-range behaviour is
modelled exactly. -/
def applyMove (state : AnnealState) (move : AnnealMove) : AnnealState :=
  let l := state.layout
  let nextLayout :=
    match move.kind with
    | AnnealMoveKind.nudge index delta =>
        if l.length > 0 then l.set index (l.getD index 0 + delta) else l
    | AnnealMoveKind.swap a b =>
        if l.length > 1 then (l.set a (l.getD b 0)).set b (l.getD a 0) else l
    | AnnealMoveKind.reinsert fromIdx toIdx =>
        if l.length > 1 then
          let item := l.getD fromIdx 0
          let removed := l.eraseIdx fromIdx
          removed.insertIdx (min toIdx removed.length) item
        else l
    | AnnealMoveKind.blockShift start endIdx shift =>
        if l.length > 0 ∧ shift ≠ 0 then
          let start1 := min start (l.length - 1)
          let end1 := max start1 (min endIdx (l.length - 1))
          let block := (l.drop start1).take (end1 - start1 + 1)
          let rest := l.take start1 ++ l.drop (end1 + 1)
          let insertion := (max 0 (min ((start1 : Int) + shift) (rest.length : Int))).toNat
          rest.take insertion ++ block ++ rest.drop insertion
        else l
  { state with
      layout := nextLayout
      costBreakdown := state.problem.evaluateCost nextLayout
      rngState := move.rngStateAfterProposal }

/-- `engine.ts` `acceptMove`; `mexp` models `Math.exp`. -/
def acceptMove (mexp : ℚ → ℚ) (state candidate : AnnealState) : AnnealTransition :=
  let deltaCost := candidate.costBreakdown.total - state.costBreakdown.total
  let before := cloneSnapshot state.toAnnealStateSnapshot
  let decision : Bool × AcceptReason × AnnealRngState :=
    if deltaCost < 0 then (true, AcceptReason.improved, candidate.rngState)
    else if deltaCost = 0 then (true, AcceptReason.equal, candidate.rngState)
    else
      let ur := nextRng candidate.rngState
      let metropolisCutoff := mexp (-deltaCost / max state.temperature 0.000000000001)
      if ur.1 < metropolisCutoff then (true, AcceptReason.metropolis, ur.2)
      else (false, AcceptReason.rejected, ur.2)
  let accepted := decision.1
  let reason := decision.2.1
  let rngAfterAccept := decision.2.2
  let baseNext : AnnealStateSnapshot :=
    { iteration := state.iteration + 1
      temperature := cool state.problem state.temperature
      layout := if accepted then candidate.layout else state.layout
      costBreakdown := if accepted then candidate.costBreakdown else state.costBreakdown
      rngState := rngAfterAccept }
  { proposal := ⟨AnnealMoveKind.nudge 0 0, candidate.rngState⟩
    deltaCost := deltaCost
    accepted := accepted
    reason := reason
    before := before
    after := baseNext }

/-- `engine.ts` `buildNextStateFromTransition`. -/
def buildNextStateFromTransition (state : AnnealState) (transition : AnnealTransition) : AnnealState :=
  { state with
      iteration := transition.after.iteration
      temperature := transition.after.temperature
      layout := transition.after.layout
      costBreakdown := transition.after.costBreakdown
      rngState := transition.after.rngState }

/-- `engine.ts` `stepAnneal`: the source mutates the session in place to the
`persisted` state; the pure model returns that state next to the transition. -/
def stepAnneal (mexp : ℚ → ℚ) (state : AnnealState) : AnnealTransition × AnnealState :=
  let proposal := proposeMove state
  let candidate := applyMove state proposal
  let acceptedTransition := acceptMove mexp state candidate
  let transition := { acceptedTransition with proposal := proposal }
  let postStep := buildNextStateFromTransition state transition
  let persisted := appendTransition postStep transition
  (transition, persisted)

/-- The loop body of `runAnneal`, returning the transitions it produced
(the observer callback of the source sees exactly this list in order). -/
def runAnnealSteps (mexp : ℚ → ℚ) : AnnealState → Nat → List AnnealTransition × AnnealState
  | state, 0 => ([], state)
  | state, n + 1 =>
      let ts := stepAnneal mexp state
      let rest := runAnnealSteps mexp ts.2 n
      (ts.1 :: rest.1, rest.2)

/-- `engine.ts` `runAnneal`: `max(0, Math.floor(budget))` steps. -/
def runAnneal (mexp : ℚ → ℚ) (state : AnnealState) (budget : ℚ) : AnnealState :=
  (runAnnealSteps mexp state (⌊budget⌋.toNat)).2

/-- `engine.ts` `exportTransitionRing`. -/
def exportTransitionRing (state : AnnealState) : List AnnealTransition :=
  let ring := state.transitionBuffer
  (List.range ring.size).filterMap fun (i : Nat) =>
    let index :=
      (((ring.head : Int) - ring.size + (i : Int) + ring.capacity) % (ring.capacity : Int)).toNat
    ring.entries.getD index none

/-- `engine.ts` `exportFullTrace`. -/
def exportFullTrace (state : AnnealState) : List AnnealTransition :=
  state.fullTrace

end Engine

namespace CostModel

/-!
Embedding of `cost.ts`.  JavaScript numbers here must track NaN and the
infinities (the file's stated purpose is to coerce non-finite measurements),
so they are modelled by `JsNum`: a rational, NaN, `+∞` or `-∞`, with
addition/multiplication following the IEEE rules for those cases (the single
rational zero stands for both signed zeros; no claim distinguishes them).
-/

/-- A JavaScript number: finite (as an exact rational), NaN, or ±Infinity. -/
inductive JsNum where
  | fin (q : ℚ)
  | nan
  | inf
  | ninf
deriving DecidableEq

namespace JsNum

/-- `Number.isFinite`. -/
def isFinite : JsNum → Bool
  | fin _ => true
  | _ => false

/-- IEEE addition on the modelled values. -/
def add : JsNum → JsNum → JsNum
  | nan, _ => nan
  | _, nan => nan
  | inf, ninf => nan
  | ninf, inf => nan
  | inf, _ => inf
  | _, inf => inf
  | ninf, _ => ninf
  | _, ninf => ninf
  | fin a, fin b => fin (a + b)

/-- IEEE negation. -/
def neg : JsNum → JsNum
  | fin q => fin (-q)
  | nan => nan
  | inf => ninf
  | ninf => inf

/-- IEEE subtraction. -/
def sub (a b : JsNum) : JsNum := add a (neg b)

/-- IEEE multiplication on the modelled values (`∞ * 0 = NaN`). -/
def mul : JsNum → JsNum → JsNum
  | nan, _ => nan
  | _, nan => nan
  | fin a, fin b => fin (a * b)
  | inf, fin b => if 0 < b then inf else if b < 0 then ninf else nan
  | fin a, inf => if 0 < a then inf else if a < 0 then ninf else nan
  | ninf, fin b => if 0 < b then ninf else if b < 0 then inf else nan
  | fin a, ninf => if 0 < a then ninf else if a < 0 then inf else nan
  | inf, inf => inf
  | inf, ninf => ninf
  | ninf, inf => ninf
  | ninf, ninf => inf

/-- `Math.abs`. -/
def abs : JsNum → JsNum
  | fin q => fin |q|
  | nan => nan
  | inf => inf
  | ninf => inf

end JsNum

/-- `cost.ts` `CostBreakdown`. -/
structure CostBreakdown where
  total : JsNum
  L : JsNum
  X : JsNum
  B : JsNum
  F_out : JsNum
  F_down : JsNum
  F : JsNum
  S_span : JsNum
  S_waste : JsNum
  S : JsNum
deriving DecidableEq

/-- `cost.ts` `LayoutCostInput`. -/
structure LayoutCostInput where
  positions : Option (List JsNum) := none
  spans : Option (List JsNum) := none
  waste : Option JsNum := none
deriving DecidableEq

/-- `cost.ts` `RoutingCostInput`. -/
structure RoutingCostInput where
  crossings : Option JsNum := none
  bends : Option JsNum := none
  flowOutViolations : Option JsNum := none
  flowDownViolations : Option JsNum := none
  spans : Option (List JsNum) := none
deriving DecidableEq

/-- The optional per-term weight record of `cost.ts` `CostConfig`. -/
structure CostWeights where
  L : Option JsNum := none
  X : Option JsNum := none
  B : Option JsNum := none
  F_out : Option JsNum := none
  F_down : Option JsNum := none
  F : Option JsNum := none
  S_span : Option JsNum := none
  S_waste : Option JsNum := none
  S : Option JsNum := none
deriving DecidableEq

/-- `cost.ts` `CostConfig`. -/
structure CostConfig where
  weights : Option CostWeights := none
deriving DecidableEq

/-- `cost.ts` `ZERO_COST`. -/
def ZERO_COST : CostBreakdown :=
  ⟨JsNum.fin 0, JsNum.fin 0, JsNum.fin 0, JsNum.fin 0, JsNum.fin 0,
    JsNum.fin 0, JsNum.fin 0, JsNum.fin 0, JsNum.fin 0, JsNum.fin 0⟩

/-- `cost.ts` `sum`: a running `+=` from 0. -/
def sum (values : List JsNum) : JsNum :=
  values.foldl JsNum.add (JsNum.fin 0)

/-- `cost.ts` `weighted`: the default parameter `weight = 1` applies when the
weight is `undefined`. -/
def weighted (value : JsNum) (weight : Option JsNum) : JsNum :=
  value.mul (weight.getD (JsNum.fin 1))

/-- `cost.ts` `finiteOrZero`: `Number.isFinite` is false on `undefined`,
NaN and the infinities. -/
def finiteOrZero (value : Option JsNum) : JsNum :=
  match value with
  | some (JsNum.fin q) => JsNum.fin q
  | _ => JsNum.fin 0

/-- `cost.ts` `computeCost`. -/
def computeCost (layout : LayoutCostInput) (routing : RoutingCostInput)
    (config : CostConfig) : CostBreakdown :=
  let weights := config.weights.getD {}
  let positions := layout.positions.getD []
  let spans := (layout.spans.getD (routing.spans.getD []))
  let baseL := sum (positions.map JsNum.abs)
  let baseX := finiteOrZero routing.crossings
  let baseB := finiteOrZero routing.bends
  let baseFOut := finiteOrZero routing.flowOutViolations
  let baseFDown := finiteOrZero routing.flowDownViolations
  let baseSSpan := sum (spans.map JsNum.abs)
  let baseSWaste := finiteOrZero layout.waste
  let L := weighted baseL weights.L
  let X := weighted baseX weights.X
  let B := weighted baseB weights.B
  let F_out := weighted baseFOut weights.F_out
  let F_down := weighted baseFDown weights.F_down
  let F := weighted (baseFOut.add baseFDown) weights.F
  let S_span := weighted baseSSpan weights.S_span
  let S_waste := weighted baseSWaste weights.S_waste
  let S := weighted (baseSSpan.add baseSWaste) weights.S
  let total :=
    ((((((((L.add X).add B).add F_out).add F_down).add F).add S_span).add S_waste).add S)
  ⟨total, L, X, B, F_out, F_down, F, S_span, S_waste, S⟩

/-- `cost.ts` `computeDeltaCost`. -/
def computeDeltaCost (prev next : CostBreakdown) : CostBreakdown :=
  ⟨next.total.sub prev.total, next.L.sub prev.L, next.X.sub prev.X,
    next.B.sub prev.B, next.F_out.sub prev.F_out, next.F_down.sub prev.F_down,
    next.F.sub prev.F, next.S_span.sub prev.S_span,
    next.S_waste.sub prev.S_waste, next.S.sub prev.S⟩

/-- `cost.ts` `zeroCostBreakdown`. -/
def zeroCostBreakdown : CostBreakdown := ZERO_COST

end CostModel

namespace Router

/-!
Embedding of `draftRouter.ts`.  Grid coordinates entering the router are
JS numbers, modelled by `ℚ`; grid cells are integer pairs.  JS `Map`/`Set`
objects keyed by the `"x,y"` string of a cell (an injective key) are
modelled as association lists / lists keyed by the cell itself.  The two
source loops without a structural bound (the A* `while` and the
`reconstructPath` walk) take explicit fuel.
-/

/-- `draftRouter.ts` `GridPoint`. -/
structure GridPoint where
  x : ℚ
  y : ℚ
deriving DecidableEq

/-- `draftRouter.ts` `GridRect`. -/
structure GridRect where
  x : ℚ
  y : ℚ
  width : ℚ
  height : ℚ
deriving DecidableEq

/-- `draftRouter.ts` `DraftRouterEdge`. -/
structure DraftRouterEdge where
  id : String
  source : GridPoint
  target : GridPoint
deriving DecidableEq

/-- `draftRouter.ts` `DraftRouterInput`. -/
structure DraftRouterInput where
  edges : List DraftRouterEdge
  obstacles : Option (List GridRect) := none
  blockedCells : Option (List GridPoint) := none
  gridStep : Option ℚ := none
  obstaclePadding : Option ℚ := none

/-- `draftRouter.ts` `RoutedEdge`. -/
structure RoutedEdge where
  id : String
  points : List GridPoint
deriving DecidableEq

/-- `draftRouter.ts` `RouteCost`. -/
structure RouteCost where
  length : ℚ
  bends : ℚ
  crossings : ℚ
  total : ℚ
deriving DecidableEq

/-- `draftRouter.ts` `DraftRouterResult` (`mode` is the literal `"draft"`). -/
structure DraftRouterResult where
  mode : String
  routes : List RoutedEdge
  cost : RouteCost
deriving DecidableEq

/-- `draftRouter.ts` `Cell`. -/
structure Cell where
  x : Int
  y : Int
deriving DecidableEq

/-- `draftRouter.ts` `NEIGHBOR_DIRS`. -/
def NEIGHBOR_DIRS : List Cell := [⟨1, 0⟩, ⟨0, 1⟩, ⟨0, -1⟩, ⟨-1, 0⟩]

/-- JS `Math.round`: halves round toward `+∞`. -/
def jsRound (q : ℚ) : Int := ⌊q + 1 / 2⌋

/-- `draftRouter.ts` `normalizeToCell`. -/
def normalizeToCell (point : GridPoint) (step : ℚ) : Cell :=
  ⟨jsRound (point.x / step), jsRound (point.y / step)⟩

/-- `draftRouter.ts` `denormalizeFromCell`. -/
def denormalizeFromCell (cell : Cell) (step : ℚ) : GridPoint :=
  ⟨(cell.x : ℚ) * step, (cell.y : ℚ) * step⟩

/-- JS `Set.add` on the cell-keyed blocked set. -/
def setAdd (s : List Cell) (c : Cell) : List Cell :=
  if c ∈ s then s else s ++ [c]

/-- JS `Set.delete` on the cell-keyed blocked set. -/
def setDelete (s : List Cell) (c : Cell) : List Cell :=
  s.filter (fun x => x ≠ c)

/-- The inclusive integer range `[lo, hi]` of the source's nested `for`
loops (empty when `hi < lo`). -/
def intRange (lo hi : Int) : List Int :=
  (List.range (hi + 1 - lo).toNat).map (fun i => lo + (i : Int))

/-- `draftRouter.ts` `buildBlockedSet`. -/
def buildBlockedSet (obstacles : List GridRect) (blockedCells : List GridPoint)
    (step : ℚ) (obstaclePadding : Int) : List Cell :=
  let blocked := blockedCells.foldl (fun s point => setAdd s (normalizeToCell point step)) []
  obstacles.foldl
    (fun s obstacle =>
      let minX := ⌊obstacle.x / step⌋ - obstaclePadding
      let maxX := ⌈(obstacle.x + obstacle.width) / step⌉ + obstaclePadding
      let minY := ⌊obstacle.y / step⌋ - obstaclePadding
      let maxY := ⌈(obstacle.y + obstacle.height) / step⌉ + obstaclePadding
      (intRange minX maxX).foldl
        (fun s2 x => (intRange minY maxY).foldl (fun s3 y => setAdd s3 ⟨x, y⟩) s2) s)
    blocked

/-- `draftRouter.ts` `manhattan`. -/
def manhattan (a b : Cell) : Int :=
  |a.x - b.x| + |a.y - b.y|

/-- Lookup in a cell-keyed JS `Map` modelled as an association list whose
most recent binding comes first. -/
def mapGet {β : Type} (m : List (Cell × β)) (k : Cell) : Option β :=
  (m.find? (fun e => e.1 = k)).map (fun e => e.2)

/-- JS `Map.set` (overwrite = shadow the older binding). -/
def mapSet {β : Type} (m : List (Cell × β)) (k : Cell) (v : β) : List (Cell × β) :=
  (k, v) :: m

/-- The walk of `reconstructPath` (`while (cameFrom.has(cursor))`), with
fuel `cameFrom.length + 1`: a longer walk would revisit a key, which makes
the source loop forever — unreachable for maps the search builds. -/
def reconstructWalk (cameFrom : List (Cell × Cell)) : Cell → List Cell → Nat → List Cell
  | _, path, 0 => path
  | cursor, path, fuel + 1 =>
      match mapGet cameFrom cursor with
      | none => path
      | some prev => reconstructWalk cameFrom prev (path ++ [prev]) fuel

/-- `draftRouter.ts` `reconstructPath`. -/
def reconstructPath (cameFrom : List (Cell × Cell)) (endCell : Cell) : List Cell :=
  (reconstructWalk cameFrom endCell [endCell] (cameFrom.length + 1)).reverse

/-- The open-set comparator of `findPath` as a `≤` test: lowest `f` (missing
`f` = `+∞`) first, then lowest `x`, then lowest `y`. -/
def openLe (f : List (Cell × Int)) (a b : Cell) : Bool :=
  let fa := mapGet f a
  let fb := mapGet f b
  match fa, fb with
  | none, none => if a.x = b.x then a.y ≤ b.y else a.x ≤ b.x
  | none, some _ => false
  | some _, none => true
  | some va, some vb =>
      if va = vb then (if a.x = b.x then a.y ≤ b.y else a.x ≤ b.x) else va ≤ vb

/-- The mutable working state of one `findPath` call. -/
structure SearchState where
  openList : List Cell
  cameFrom : List (Cell × Cell)
  g : List (Cell × Int)
  f : List (Cell × Int)
  openSet : List Cell

/-- The neighbour-relaxation `for` loop body of `findPath`. -/
def expandNeighbors (goal : Cell) (blocked : List Cell) (current : Cell)
    (st : SearchState) : SearchState :=
  NEIGHBOR_DIRS.foldl
    (fun acc dir =>
      let neighbor : Cell := ⟨current.x + dir.x, current.y + dir.y⟩
      if neighbor ≠ goal ∧ neighbor ∈ blocked then acc
      else
        match mapGet acc.g current with
        | none => acc
        | some gCur =>
            let tentativeG := gCur + 1
            let better :=
              match mapGet acc.g neighbor with
              | none => true
              | some gN => tentativeG < gN
            if better then
              let cameFrom1 := mapSet acc.cameFrom neighbor current
              let g1 := mapSet acc.g neighbor tentativeG
              let f1 := mapSet acc.f neighbor (tentativeG + manhattan neighbor goal)
              if neighbor ∈ acc.openSet then
                ⟨acc.openList, cameFrom1, g1, f1, acc.openSet⟩
              else
                ⟨acc.openList ++ [neighbor], cameFrom1, g1, f1, acc.openSet ++ [neighbor]⟩
            else acc)
    st

/-- The `while (open.length > 0)` loop of `findPath`, with fuel.  Each
iteration sorts the open list with the source's comparator (the open list
never holds duplicates, so the sort is fully determined), pops the head,
and either finishes or relaxes the 4 neighbours. -/
def searchLoop (start goal : Cell) (blocked : List Cell) :
    SearchState → Nat → List Cell
  | _, 0 => [start, goal]
  | st, fuel + 1 =>
      match st.openList.mergeSort (openLe st.f) with
      | [] => [start, goal]
      | current :: restOpen =>
          let openSet1 := setDelete st.openSet current
          if current = goal then reconstructPath st.cameFrom current
          else
            let st1 := expandNeighbors goal blocked current
              ⟨restOpen, st.cameFrom, st.g, st.f, openSet1⟩
            searchLoop start goal blocked st1 fuel

/-- Fuel bound for the A* loop, ample for any input the claims evaluate. -/
def ASTAR_FUEL : Nat := 1000000

/-- `draftRouter.ts` `findPath`. -/
def findPath (start goal : Cell) (blocked : List Cell) : List Cell :=
  if start = goal then [start]
  else
    searchLoop start goal blocked
      ⟨[start], [], [(start, 0)], [(start, manhattan start goal)], [start]⟩ ASTAR_FUEL

/-- The collinear-run compression pass of `simplifyPath` (the loop over
`i = 1 .. length-1`, carrying `out` and `prevDir`). -/
def compressRuns (path : List Cell) : List Cell :=
  let pairs := path.zip (path.drop 1)
  let out0 : List Cell × Option Cell := ([path.headD ⟨0, 0⟩], none)
  (pairs.foldl
    (fun acc pc =>
      let prev := pc.1
      let curr := pc.2
      let dir : Cell := ⟨curr.x - prev.x, curr.y - prev.y⟩
      match acc.2 with
      | none => (acc.1 ++ [prev], some dir)
      | some prevDir =>
          if prevDir = dir then acc else (acc.1 ++ [prev], some dir))
    out0).1

/-- The consecutive-duplicate removal pass of `simplifyPath`. -/
def dedupConsecutive (points : List Cell) : List Cell :=
  points.foldl (fun d point => if d.getLast? = some point then d else d ++ [point]) []

/-- `draftRouter.ts` `simplifyPath`. -/
def simplifyPath (path : List Cell) : List Cell :=
  if path.length ≤ 2 then path
  else dedupConsecutive (compressRuns path ++ [path.getLastD ⟨0, 0⟩])

/-- One segment of `segmentCrossings`. -/
structure Seg where
  a : GridPoint
  b : GridPoint
  edgeId : String
deriving DecidableEq

/-- The consecutive-point segments of a set of routes, in source order. -/
def segmentsOf (routes : List RoutedEdge) : List Seg :=
  (routes.map (fun route =>
      (route.points.zip (route.points.drop 1)).map (fun pc => ⟨pc.1, pc.2, route.id⟩))).flatten

/-- The inner-pair test of `segmentCrossings` (`s1` comes earlier than `s2`
in the segment list). -/
def crossesPair (s1 s2 : Seg) : Bool :=
  if s1.edgeId = s2.edgeId then false
  else
    let s1Vertical : Bool := s1.a.x = s1.b.x
    let s2Vertical : Bool := s2.a.x = s2.b.x
    if s1Vertical = s2Vertical then false
    else
      let vertical := if s1Vertical then s1 else s2
      let horizontal := if s1Vertical then s2 else s1
      let vx := vertical.a.x
      let hy := horizontal.a.y
      let vMinY := min vertical.a.y vertical.b.y
      let vMaxY := max vertical.a.y vertical.b.y
      let hMinX := min horizontal.a.x horizontal.b.x
      let hMaxX := max horizontal.a.x horizontal.b.x
      hMinX ≤ vx ∧ vx ≤ hMaxX ∧ vMinY ≤ hy ∧ hy ≤ vMaxY

/-- The ordered double loop (`i < j`) of `segmentCrossings`. -/
def countPairs : List Seg → Nat
  | [] => 0
  | s :: rest => rest.countP (fun s2 => crossesPair s s2) + countPairs rest

/-- `draftRouter.ts` `segmentCrossings`. -/
def segmentCrossings (routes : List RoutedEdge) : Nat :=
  countPairs (segmentsOf routes)

/-- `draftRouter.ts` `evaluateRouteCost`. -/
def evaluateRouteCost (routes : List RoutedEdge) : RouteCost :=
  let length := routes.foldl
    (fun acc route =>
      (route.points.zip (route.points.drop 1)).foldl
        (fun a pc => a + |pc.2.x - pc.1.x| + |pc.2.y - pc.1.y|) acc)
    0
  let bends : Nat := routes.foldl
    (fun acc route =>
      acc + (((route.points.zip (route.points.drop 1)).zip (route.points.drop 2)).countP
        (fun t =>
          ¬(t.1.2.x - t.1.1.x = t.2.x - t.1.2.x ∧ t.1.2.y - t.1.1.y = t.2.y - t.1.2.y)))
    ) 0
  let crossings := segmentCrossings routes
  ⟨length, (bends : ℚ), (crossings : ℚ),
    length + (bends : ℚ) * 5 + (crossings : ℚ) * 20⟩

/-- A JS `String.prototype.localeCompare` is supplied by the host
environment and locale (negative / zero / positive); like `Math.exp` in the
engine, it is threaded through as an explicit function parameter `lc`.
`codePointCompare` models an environment whose collation agrees with
code-point order (as it does for the plain-ASCII ids used below). -/
def codePointCompare (a b : String) : Int :=
  if a < b then -1 else if b < a then 1 else 0

/-- The per-edge body of the `routeDraft` loop, threading the blocked set
and the accumulated routes. -/
def routeOneEdge (gridStep : ℚ) (acc : List Cell × List RoutedEdge)
    (edge : DraftRouterEdge) : List Cell × List RoutedEdge :=
  let start := normalizeToCell edge.source gridStep
  let goal := normalizeToCell edge.target gridStep
  let blocked1 := setDelete (setDelete acc.1 start) goal
  let rawPath := findPath start goal blocked1
  let simplified := (simplifyPath rawPath).map (fun cell => denormalizeFromCell cell gridStep)
  let blocked2 := rawPath.foldl
    (fun s point => if point ≠ start ∧ point ≠ goal then setAdd s point else s) blocked1
  (blocked2, acc.2 ++ [⟨edge.id, simplified⟩])

/-- `draftRouter.ts` `routeDraft`.  The source sorts a copy of the input
with `(a, b) => a.id.localeCompare(b.id)`; JS `sort` is stable, so it is
modelled as a stable merge sort that places `a` before `b` exactly when the
environment's comparator `lc` returns `≤ 0` on the two ids.  Ties between
distinct ids (which real collators produce, e.g. on canonically equivalent
strings) therefore keep the input order, as in the source. -/
def routeDraft (lc : String → String → Int) (input : DraftRouterInput) : DraftRouterResult :=
  let gridStep : ℚ := (max 1 ⌊input.gridStep.getD 1⌋ : Int)
  let obstaclePadding : Int := max 0 ⌊input.obstaclePadding.getD 1⌋
  let blocked := buildBlockedSet (input.obstacles.getD []) (input.blockedCells.getD [])
    gridStep obstaclePadding
  let sortedEdges := input.edges.mergeSort (fun a b => decide (lc a.id b.id ≤ 0))
  let final := sortedEdges.foldl (routeOneEdge gridStep) (blocked, [])
  ⟨"draft", final.2, evaluateRouteCost final.2⟩

end Router

namespace Facade

open Router

/-!
Embedding of `elkRouter.ts` and `routerFacade.ts`.  The external precise
layout callback (`elkLayout`, an async function in the source) is the only
suspension point and is awaited before the step finishes, so it is modelled
as a plain optional function.  `runHybrid`, which reads `steps[0]` before
its loop, returns `none` on an empty step list (where the source throws).
-/

/-- `elkRouter.ts` `ElkNode`. -/
structure ElkNode where
  id : String
  x : ℚ
  y : ℚ
  width : ℚ
  height : ℚ

/-- `elkRouter.ts` `ElkEdge`. -/
structure ElkEdge where
  id : String
  source : String
  target : String

/-- `elkRouter.ts` `ElkSection`. -/
structure ElkSection where
  startPoint : Option GridPoint := none
  endPoint : Option GridPoint := none
  bendPoints : Option (List GridPoint) := none

/-- `elkRouter.ts` `ElkLayoutEdge`. -/
structure ElkLayoutEdge where
  id : String
  sections : Option (List ElkSection) := none

/-- `elkRouter.ts` `ElkGraph`. -/
structure ElkGraph where
  id : String
  layoutOptions : List (String × String) := []
  children : List ElkNode
  edges : List ElkEdge

/-- `elkRouter.ts` `ElkLayoutGraph`. -/
structure ElkLayoutGraph where
  id : String
  children : List ElkNode
  edges : List ElkLayoutEdge

/-- `elkRouter.ts` `ElkRouterInput`; the async `elkLayout` callback is
modelled as a pure optional function. -/
structure ElkRouterInput where
  nodes : List ElkNode
  edges : List ElkEdge
  draftInput : Option DraftRouterInput := none
  elkLayout : Option (ElkGraph → ElkLayoutGraph) := none

/-- `elkRouter.ts` `ElkRouterResult` (`mode` is the literal `"elk"`). -/
structure ElkRouterResult where
  mode : String
  routes : List RoutedEdge
  cost : RouteCost
  fallbackUsed : Bool

/-- `elkRouter.ts` `toElkGraph`. -/
def toElkGraph (input : ElkRouterInput) : ElkGraph :=
  { id := "root"
    children := input.nodes
    edges := input.edges
    layoutOptions :=
      [("org.eclipse.elk.algorithm", "layered"),
        ("org.eclipse.elk.edgeRouting", "ORTHOGONAL"),
        ("org.eclipse.elk.interactive", "true"),
        ("org.eclipse.elk.interactiveLayout", "true"),
        ("org.eclipse.elk.layered.considerModelOrder", "NODES_AND_EDGES")] }

/-- `elkRouter.ts` `pointsFromSection` (`sec` stands for the source's
`section`, a Lean keyword): start point if present, then the bend points,
then the end point if present. -/
def pointsFromSection (sec : ElkSection) : List GridPoint :=
  sec.startPoint.toList ++ sec.bendPoints.getD [] ++ sec.endPoint.toList

/-- `elkRouter.ts` `uniqueConsecutive`. -/
def uniqueConsecutive (points : List GridPoint) : List GridPoint :=
  points.foldl (fun out point => if out.getLast? = some point then out else out ++ [point]) []

/-- `elkRouter.ts` `routeElk`; `lc` is the environment collator threaded
into the draft-router calls. -/
def routeElk (lc : String → String → Int) (input : ElkRouterInput) : ElkRouterResult :=
  let draftFallback := routeDraft lc (input.draftInput.getD
    { edges := input.edges.map (fun edge =>
        let sourceNode := input.nodes.find? (fun node => node.id = edge.source)
        let targetNode := input.nodes.find? (fun node => node.id = edge.target)
        { id := edge.id
          source := match sourceNode with
            | some node => ⟨node.x, node.y⟩
            | none => ⟨0, 0⟩
          target := match targetNode with
            | some node => ⟨node.x, node.y⟩
            | none => ⟨0, 0⟩ }) })
  match input.elkLayout with
  | none => ⟨"elk", draftFallback.routes, draftFallback.cost, true⟩
  | some elkLayout =>
      let layout := elkLayout (toElkGraph input)
      let routes : List RoutedEdge := layout.edges.map (fun edge =>
        ⟨edge.id, uniqueConsecutive (((edge.sections.getD []).map pointsFromSection).flatten)⟩)
      let normalized := routes.map (fun route =>
        if route.points.length ≥ 2 then route
        else (draftFallback.routes.find? (fun fallback => fallback.id = route.id)).getD route)
      ⟨"elk", normalized, evaluateRouteCost normalized, false⟩

/-- `routerFacade.ts` `RouterMode`. -/
inductive RouterMode where
  | draft
  | elk
  | hybrid
deriving DecidableEq

/-- `Omit<ElkRouterInput, "draftInput">`, the `elk` field of a step. -/
structure ElkStepInput where
  nodes : List ElkNode
  edges : List ElkEdge
  elkLayout : Option (ElkGraph → ElkLayoutGraph) := none

/-- `routerFacade.ts` `RouterStep`. -/
structure RouterStep where
  draft : DraftRouterInput
  elk : Option ElkStepInput := none
  accepted : Option Bool := none
  label : Option String := none

/-- `routerFacade.ts` `RouterFacadeInput`. -/
structure RouterFacadeInput where
  mode : RouterMode
  step : RouterStep
  stepsForHybrid : Option (List RouterStep) := none
  hybridRescoreEveryAccepted : Option ℚ := none
  score : Option (RouteCost → ℚ) := none

/-- `routerFacade.ts` `RouteDebugTrace`. -/
structure RouteDebugTrace where
  stepIndex : Nat
  label : Option String
  mode : RouterMode
  accepted : Bool
  draftCost : RouteCost
  elkCost : Option RouteCost
  selectedCost : RouteCost
  selectedScore : ℚ

/-- The `DraftRouterResult | ElkRouterResult` union. -/
inductive RouterSelected where
  | draft (r : DraftRouterResult)
  | elk (r : ElkRouterResult)

/-- `routerFacade.ts` `RouterFacadeResult`. -/
structure RouterFacadeResult where
  selected : RouterSelected
  trace : List RouteDebugTrace

/-- `routerFacade.ts` `toSelectedCost`. -/
def toSelectedCost (cost : RouteCost) : RouteCost :=
  ⟨cost.length, cost.bends, cost.crossings, cost.total⟩

/-- `routerFacade.ts` `scoreCost`. -/
def scoreCost (cost : RouteCost) (score : Option (RouteCost → ℚ)) : ℚ :=
  match score with
  | some f => f cost
  | none => cost.total

/-- The `for` loop of `runHybrid`: `i` is the current index, `total` the
step count, and `acceptedSinceElk` the accepted-steps counter. -/
def hybridLoop (lc : String → String → Int) (every : Int) (total : Nat)
    (score : Option (RouteCost → ℚ)) :
    Nat → Int → RouterSelected → List RouteDebugTrace → List RouterStep →
      RouterSelected × List RouteDebugTrace
  | _, _, selected, trace, [] => (selected, trace)
  | i, acceptedSinceElk, _, trace, step :: rest =>
      let accepted := step.accepted.getD false
      let draft := routeDraft lc step.draft
      let counted := if accepted then acceptedSinceElk + 1 else acceptedSinceElk
      let elkRes : Option ElkRouterResult :=
        match step.elk with
        | some elkStep =>
            if counted ≥ every ∨ i = total - 1 then
              some (routeElk lc ⟨elkStep.nodes, elkStep.edges, some step.draft, elkStep.elkLayout⟩)
            else none
        | none => none
      let counterNext := if elkRes.isSome then 0 else counted
      let selectedCost := (elkRes.map ElkRouterResult.cost).getD draft.cost
      let entry : RouteDebugTrace :=
        ⟨i, step.label, RouterMode.hybrid, accepted, toSelectedCost draft.cost,
          elkRes.map (fun e => toSelectedCost e.cost), toSelectedCost selectedCost,
          scoreCost selectedCost score⟩
      let selectedNext :=
        match elkRes with
        | some e => RouterSelected.elk e
        | none => RouterSelected.draft draft
      hybridLoop lc every total score (i + 1) counterNext selectedNext (trace ++ [entry]) rest

/-- `routerFacade.ts` `runHybrid`; `none` models the exception the source
throws on an empty hybrid step list (it reads `steps[0]`). -/
def runHybrid (lc : String → String → Int) (input : RouterFacadeInput) :
    Option RouterFacadeResult :=
  let steps := input.stepsForHybrid.getD [input.step]
  match steps with
  | [] => none
  | s0 :: _ =>
      let every := max 1 ⌊input.hybridRescoreEveryAccepted.getD 10⌋
      let r := hybridLoop lc every steps.length input.score 0 0
        (RouterSelected.draft (routeDraft lc s0.draft)) [] steps
      some ⟨r.1, r.2⟩

/-- `routerFacade.ts` `routeWithFacade`. -/
def routeWithFacade (lc : String → String → Int) (input : RouterFacadeInput) :
    Option RouterFacadeResult :=
  match input.mode with
  | RouterMode.draft =>
      let draft := routeDraft lc input.step.draft
      some ⟨RouterSelected.draft draft,
        [⟨0, input.step.label, RouterMode.draft, input.step.accepted.getD false,
          toSelectedCost draft.cost, none, toSelectedCost draft.cost,
          scoreCost draft.cost input.score⟩]⟩
  | RouterMode.elk =>
      let base := input.step.elk.getD ⟨[], [], none⟩
      let elk := routeElk lc ⟨base.nodes, base.edges, some input.step.draft, base.elkLayout⟩
      some ⟨RouterSelected.elk elk,
        [⟨0, input.step.label, RouterMode.elk, input.step.accepted.getD false,
          toSelectedCost (routeDraft lc input.step.draft).cost, some (toSelectedCost elk.cost),
          toSelectedCost elk.cost, scoreCost elk.cost input.score⟩]⟩
  | RouterMode.hybrid => runHybrid lc input

/-- The cadence rule as the claim states it, written from the spec's words:
a counter of accepted steps since the last precise invocation (the current
step included); the precise router is invoked on a step exactly when a
precise router is attached to it and either the counter has reached the
cadence or the step is the last one, and an invocation resets the counter
to 0. -/
def cadenceSpecLoop (every : Int) (total : Nat) : Nat → Int → List RouterStep → List Bool
  | _, _, [] => []
  | i, count, step :: rest =>
      let counted := if step.accepted.getD false then count + 1 else count
      let invoked := step.elk.isSome ∧ (counted ≥ every ∨ i = total - 1)
      decide invoked ::
        cadenceSpecLoop every total (i + 1) (if invoked then 0 else counted) rest

/-- The spec-side invocation pattern over a whole hybrid step sequence. -/
def cadenceSpecFlags (steps : List RouterStep) (every : Int) : List Bool :=
  cadenceSpecLoop every steps.length 0 0 steps

end Facade

/-- A tiny concrete problem used by the witnesses: two elements, cost =
sum of coordinates. -/
def exampleProblem : Engine.AnnealProblem :=
  { initialLayout := [0, 1]
    evaluateCost := fun l => ⟨l.foldl (fun a x => a + (x : ℚ)) 0, []⟩ }

/-- A concrete stand-in for `Math.exp` used by the witnesses. -/
def exampleExp : ℚ → ℚ := fun _ => 1 / 2

/-- A layout-measurement bundle whose positions array carries a NaN. -/
def nanPositionsLayout : CostModel.LayoutCostInput :=
  ⟨some [CostModel.JsNum.nan], none, none⟩

/-- An all-absent routing-measurement bundle. -/
def emptyRouting : CostModel.RoutingCostInput := ⟨none, none, none, none, none⟩

/-- A concrete finite layout-measurement bundle for the C4 witness. -/
def finiteLayout : CostModel.LayoutCostInput :=
  ⟨some [CostModel.JsNum.fin 3, CostModel.JsNum.fin (-2)], none, some CostModel.JsNum.nan⟩

/-- A concrete routing-measurement bundle with a non-finite scalar field. -/
def nanCrossingsRouting : CostModel.RoutingCostInput :=
  ⟨some CostModel.JsNum.inf, some (CostModel.JsNum.fin 4), none, none,
    some [CostModel.JsNum.fin 1]⟩

/-- A session used by the C2 witness. -/
def c2State : Engine.AnnealState := Engine.initializeAnneal exampleProblem 5

/-- A cost-increasing nudge move used by the C2 witness. -/
def c2Move : Engine.AnnealMove := ⟨Engine.AnnealMoveKind.nudge 0 1, ⟨123⟩⟩

/-- A problem whose configured initial temperature is 0 — legal input, the
initializer only clamps it to be ≥ 0. -/
def zeroTempProblem : Engine.AnnealProblem :=
  { initialLayout := [0]
    evaluateCost := fun _ => ⟨0, []⟩
    initialTemperature := some 0 }

/-- One hybrid step for the C9 witness: no edges to route, a precise
router attached, and the given acceptance flag. -/
def c9Step (acc : Bool) : Facade.RouterStep :=
  { draft := { edges := [] }
    elk := some ⟨[], [], none⟩
    accepted := some acc
    label := none }

/-- The C9 witness scenario: 12 steps, the first 10 accepted. -/
def c9Steps : List Facade.RouterStep :=
  [c9Step true, c9Step true, c9Step true, c9Step true, c9Step true,
    c9Step true, c9Step true, c9Step true, c9Step true, c9Step true,
    c9Step false, c9Step false]

/-- The C9 witness facade input (hybrid mode, default cadence 10). -/
def c9Input : Facade.RouterFacadeInput :=
  { mode := Facade.RouterMode.hybrid
    step := c9Step false
    stepsForHybrid := some c9Steps
    hybridRescoreEveryAccepted := none
    score := none }

/-- NFC composition restricted to the one canonically equivalent pair the
C8 counterexample uses: `"a" + U+0308` composes to `"ä"` (U+00E4). -/
def nfcPair (s : String) : String := if s = "ä" then "ä" else s

/-- An ECMA-402-conformant environment collator: the default collator
compares canonical equivalence classes, so the distinct ids `"ä"` and
`"a" + U+0308` compare as a tie (`localeCompare` returns 0) while other
strings here follow code-point order of their composed forms. -/
def tieLocaleCompare (a b : String) : Int :=
  if nfcPair a = nfcPair b then 0
  else if nfcPair a < nfcPair b then -1 else 1

/-- Two edges with distinct but canonically equivalent ids. -/
def tieEdgeA : Router.DraftRouterEdge := ⟨"ä", ⟨0, 0⟩, ⟨0, 0⟩⟩

def tieEdgeB : Router.DraftRouterEdge := ⟨"ä", ⟨0, 0⟩, ⟨0, 0⟩⟩

/-- The ring-buffer representation invariant: after appending the
transition list `ts` to an empty buffer of capacity `C`, the buffer's
metadata is `head = |ts| % C`, `size = min |ts| C`, and the slot read for
logical position `i` holds the `i`-th newest-retained transition. -/
def RingInv (C : Nat) (ts : List Engine.AnnealTransition)
    (r : Engine.TransitionRingBuffer) : Prop :=
  r.capacity = C ∧ r.entries.length = C ∧ r.head = ts.length % C ∧
  r.size = min ts.length C ∧
  ∀ i, i < min ts.length C →
    r.entries[(ts.length % C + (C - min ts.length C) + i) % C]? =
      some (ts[ts.length - min ts.length C + i]?)

/-!  ## Theorems  -/

section CostTheorems

open CostModel

/-- Finiteness is preserved by the JS operations `computeCost` applies to
finite data. -/
theorem JsNum.isFinite_add {a b : JsNum} (ha : a.isFinite = true)
    (hb : b.isFinite = true) : (a.add b).isFinite = true := by
  cases a <;> cases b <;> simp_all [JsNum.isFinite, JsNum.add]

theorem JsNum.isFinite_abs {a : JsNum} (ha : a.isFinite = true) :
    a.abs.isFinite = true := by
  cases a <;> simp_all [JsNum.isFinite, JsNum.abs]

theorem JsNum.isFinite_mul {a b : JsNum} (ha : a.isFinite = true)
    (hb : b.isFinite = true) : (a.mul b).isFinite = true := by
  cases a <;> cases b <;> simp_all [JsNum.isFinite, JsNum.mul]

theorem finiteOrZero_isFinite (v : Option JsNum) : (finiteOrZero v).isFinite = true := by
  unfold finiteOrZero
  rcases v with - | w
  · rfl
  · cases w <;> rfl

theorem sum_isFinite {l : List JsNum} (h : ∀ v ∈ l, v.isFinite = true) :
    (CostModel.sum l).isFinite = true := by
  unfold CostModel.sum
  have main : ∀ (l : List JsNum) (acc : JsNum), (∀ v ∈ l, v.isFinite = true) →
      acc.isFinite = true → (l.foldl JsNum.add acc).isFinite = true := by
    intro l
    induction l with
    | nil => intro acc _ hacc; simpa using hacc
    | cons a t ih =>
        intro acc hl hacc
        simp only [List.foldl_cons]
        exact ih _ (fun v hv => hl v (List.mem_cons_of_mem _ hv))
          (JsNum.isFinite_add hacc (hl a (List.mem_cons_self _ _)))
  exact main l _ h rfl

theorem weighted_isFinite {v : JsNum} {w : Option JsNum} (hv : v.isFinite = true)
    (hw : ∀ x, w = some x → x.isFinite = true) : (weighted v w).isFinite = true := by
  unfold weighted
  rcases w with - | x
  · exact JsNum.isFinite_mul hv rfl
  · exact JsNum.isFinite_mul hv (hw x rfl)

/-- Coercing an already-coerced scalar changes nothing. -/
theorem finiteOrZero_idem (v : Option JsNum) :
    finiteOrZero (some (finiteOrZero v)) = finiteOrZero v := by
  rcases v with - | w
  · rfl
  · cases w <;> rfl

/-- The `total` field of `computeCost` is definitionally the left-associated
sum of the nine weighted terms. -/
theorem computeCost_total_eq (layout : LayoutCostInput) (routing : RoutingCostInput)
    (config : CostConfig) :
    (computeCost layout routing config).total =
      (((((((((computeCost layout routing config).L.add
        (computeCost layout routing config).X).add
        (computeCost layout routing config).B).add
        (computeCost layout routing config).F_out).add
        (computeCost layout routing config).F_down).add
        (computeCost layout routing config).F).add
        (computeCost layout routing config).S_span).add
        (computeCost layout routing config).S_waste).add
        (computeCost layout routing config).S) := rfl

/-- C3 — `computeCost` returns a breakdown whose `total` is exactly the sum
`L + X + B + F_out + F_down + F + S_span + S_waste + S` (in the source's
left-associated order), where each term is its base measurement scaled by
its own per-term weight (`weighted` defaults a missing weight to 1), `F`
recombines the `F_out`/`F_down` base measurements under the `F` weight, and
`S` recombines the `S_span`/`S_waste` base measurements under the `S`
weight. -/
theorem c3_total_is_sum_of_weighted_terms (layout : LayoutCostInput)
    (routing : RoutingCostInput) (config : CostConfig) :
    let b := computeCost layout routing config
    let w := config.weights.getD {}
    let spans := layout.spans.getD (routing.spans.getD [])
    b.total =
      ((((((((b.L.add b.X).add b.B).add b.F_out).add b.F_down).add b.F).add
        b.S_span).add b.S_waste).add b.S) ∧
    b.L = weighted (CostModel.sum ((layout.positions.getD []).map JsNum.abs)) w.L ∧
    b.X = weighted (finiteOrZero routing.crossings) w.X ∧
    b.B = weighted (finiteOrZero routing.bends) w.B ∧
    b.F_out = weighted (finiteOrZero routing.flowOutViolations) w.F_out ∧
    b.F_down = weighted (finiteOrZero routing.flowDownViolations) w.F_down ∧
    b.F = weighted ((finiteOrZero routing.flowOutViolations).add
      (finiteOrZero routing.flowDownViolations)) w.F ∧
    b.S_span = weighted (CostModel.sum (spans.map JsNum.abs)) w.S_span ∧
    b.S_waste = weighted (finiteOrZero layout.waste) w.S_waste ∧
    b.S = weighted ((CostModel.sum (spans.map JsNum.abs)).add
      (finiteOrZero layout.waste)) w.S :=
  ⟨rfl, rfl, rfl, rfl, rfl, rfl, rfl, rfl, rfl, rfl⟩

/-- C4 counterexample — a NaN entry inside the `positions` array is *not*
coerced to 0: it propagates through `Math.abs` and the sum into `L` and
`total`, so the returned breakdown does contain NaN. -/
theorem c4_counterexample_nan_position_propagates :
    (computeCost nanPositionsLayout emptyRouting {}).L = JsNum.nan ∧
    (computeCost nanPositionsLayout emptyRouting {}).total = JsNum.nan := by
  exact ⟨rfl, rfl⟩

/-- C4 (amended) — only the scalar numeric fields (`crossings`, `bends`,
`flowOutViolations`, `flowDownViolations`, `waste`) are coerced: replacing
each of them by `finiteOrZero` of itself (0 when missing or non-finite)
leaves the breakdown unchanged, and the breakdown is NaN/Infinity-free as
soon as every entry of the `positions` array and of the selected spans
array, and every supplied per-term weight, is finite. -/
theorem c4_amended_scalar_coercion_and_finiteness (layout : LayoutCostInput)
    (routing : RoutingCostInput) (config : CostConfig)
    (hpos : ∀ v ∈ layout.positions.getD [], v.isFinite = true)
    (hspans : ∀ v ∈ layout.spans.getD (routing.spans.getD []), v.isFinite = true)
    (hwL : ∀ x, (config.weights.getD {}).L = some x → x.isFinite = true)
    (hwX : ∀ x, (config.weights.getD {}).X = some x → x.isFinite = true)
    (hwB : ∀ x, (config.weights.getD {}).B = some x → x.isFinite = true)
    (hwFo : ∀ x, (config.weights.getD {}).F_out = some x → x.isFinite = true)
    (hwFd : ∀ x, (config.weights.getD {}).F_down = some x → x.isFinite = true)
    (hwF : ∀ x, (config.weights.getD {}).F = some x → x.isFinite = true)
    (hwSs : ∀ x, (config.weights.getD {}).S_span = some x → x.isFinite = true)
    (hwSw : ∀ x, (config.weights.getD {}).S_waste = some x → x.isFinite = true)
    (hwS : ∀ x, (config.weights.getD {}).S = some x → x.isFinite = true) :
    computeCost layout routing config =
      computeCost ⟨layout.positions, layout.spans, some (finiteOrZero layout.waste)⟩
        ⟨some (finiteOrZero routing.crossings), some (finiteOrZero routing.bends),
          some (finiteOrZero routing.flowOutViolations),
          some (finiteOrZero routing.flowDownViolations), routing.spans⟩ config ∧
    ((computeCost layout routing config).total.isFinite = true ∧
      (computeCost layout routing config).L.isFinite = true ∧
      (computeCost layout routing config).X.isFinite = true ∧
      (computeCost layout routing config).B.isFinite = true ∧
      (computeCost layout routing config).F_out.isFinite = true ∧
      (computeCost layout routing config).F_down.isFinite = true ∧
      (computeCost layout routing config).F.isFinite = true ∧
      (computeCost layout routing config).S_span.isFinite = true ∧
      (computeCost layout routing config).S_waste.isFinite = true ∧
      (computeCost layout routing config).S.isFinite = true) := by
  have hfin : ∀ (l : List JsNum), (∀ v ∈ l, v.isFinite = true) →
      (CostModel.sum (l.map JsNum.abs)).isFinite = true := by
    intro l hl
    refine sum_isFinite ?_
    intro v hv
    rcases List.mem_map.mp hv with ⟨u, hu, rfl⟩
    exact JsNum.isFinite_abs (hl u hu)
  have hL : (computeCost layout routing config).L.isFinite = true :=
    weighted_isFinite (hfin _ hpos) hwL
  have hX : (computeCost layout routing config).X.isFinite = true :=
    weighted_isFinite (finiteOrZero_isFinite _) hwX
  have hB : (computeCost layout routing config).B.isFinite = true :=
    weighted_isFinite (finiteOrZero_isFinite _) hwB
  have hFo : (computeCost layout routing config).F_out.isFinite = true :=
    weighted_isFinite (finiteOrZero_isFinite _) hwFo
  have hFd : (computeCost layout routing config).F_down.isFinite = true :=
    weighted_isFinite (finiteOrZero_isFinite _) hwFd
  have hF : (computeCost layout routing config).F.isFinite = true :=
    weighted_isFinite
      (JsNum.isFinite_add (finiteOrZero_isFinite _) (finiteOrZero_isFinite _)) hwF
  have hSs : (computeCost layout routing config).S_span.isFinite = true :=
    weighted_isFinite (hfin _ hspans) hwSs
  have hSw : (computeCost layout routing config).S_waste.isFinite = true :=
    weighted_isFinite (finiteOrZero_isFinite _) hwSw
  have hS : (computeCost layout routing config).S.isFinite = true :=
    weighted_isFinite (JsNum.isFinite_add (hfin _ hspans) (finiteOrZero_isFinite _)) hwS
  have htotal : (computeCost layout routing config).total.isFinite = true := by
    rw [computeCost_total_eq]
    exact JsNum.isFinite_add (JsNum.isFinite_add (JsNum.isFinite_add (JsNum.isFinite_add
      (JsNum.isFinite_add (JsNum.isFinite_add (JsNum.isFinite_add
        (JsNum.isFinite_add hL hX) hB) hFo) hFd) hF) hSs) hSw) hS
  refine ⟨?_, htotal, hL, hX, hB, hFo, hFd, hF, hSs, hSw, hS⟩
  simp only [computeCost, finiteOrZero_idem]

/-- C4 witness — the amended theorem applied to a concrete input whose
arrays are finite but whose scalar `crossings` is `+∞` and whose `waste`
is NaN (both coerced to 0). -/
theorem c4_witness :
    computeCost finiteLayout nanCrossingsRouting {} =
      computeCost ⟨finiteLayout.positions, finiteLayout.spans,
          some (finiteOrZero finiteLayout.waste)⟩
        ⟨some (finiteOrZero nanCrossingsRouting.crossings),
          some (finiteOrZero nanCrossingsRouting.bends),
          some (finiteOrZero nanCrossingsRouting.flowOutViolations),
          some (finiteOrZero nanCrossingsRouting.flowDownViolations),
          nanCrossingsRouting.spans⟩ {} ∧
    ((computeCost finiteLayout nanCrossingsRouting {}).total.isFinite = true ∧
      (computeCost finiteLayout nanCrossingsRouting {}).L.isFinite = true ∧
      (computeCost finiteLayout nanCrossingsRouting {}).X.isFinite = true ∧
      (computeCost finiteLayout nanCrossingsRouting {}).B.isFinite = true ∧
      (computeCost finiteLayout nanCrossingsRouting {}).F_out.isFinite = true ∧
      (computeCost finiteLayout nanCrossingsRouting {}).F_down.isFinite = true ∧
      (computeCost finiteLayout nanCrossingsRouting {}).F.isFinite = true ∧
      (computeCost finiteLayout nanCrossingsRouting {}).S_span.isFinite = true ∧
      (computeCost finiteLayout nanCrossingsRouting {}).S_waste.isFinite = true ∧
      (computeCost finiteLayout nanCrossingsRouting {}).S.isFinite = true) :=
  c4_amended_scalar_coercion_and_finiteness finiteLayout nanCrossingsRouting {}
    (by decide) (by decide) (by decide) (by decide) (by decide) (by decide)
    (by decide) (by decide) (by decide) (by decide) (by decide)

end CostTheorems

section EngineTheorems

open Engine

/-- C1 — two independent executions of `initializeAnneal` followed by the
run loop with the same problem, seed and budget produce identical
transition sequences (field for field, snapshots included) and identical
final session states: the engine's randomness is fully determined by the
sanitized seed it stores. -/
theorem c1_run_determinism (mexp : ℚ → ℚ) (problem : AnnealProblem) (seed : Int)
    (budget : ℚ) (s₁ s₂ : AnnealState)
    (h₁ : s₁ = initializeAnneal problem seed) (h₂ : s₂ = initializeAnneal problem seed) :
    (runAnnealSteps mexp s₁ (⌊budget⌋.toNat)).1 = (runAnnealSteps mexp s₂ (⌊budget⌋.toNat)).1 ∧
    runAnneal mexp s₁ budget = runAnneal mexp s₂ budget := by
  subst h₁
  subst h₂
  exact ⟨rfl, rfl⟩

/-- C1 witness — the determinism theorem applied to a concrete problem,
seed and budget. -/
theorem c1_witness :
    (runAnnealSteps exampleExp (initializeAnneal exampleProblem 42) (⌊(3 : ℚ)⌋.toNat)).1 =
      (runAnnealSteps exampleExp (initializeAnneal exampleProblem 42) (⌊(3 : ℚ)⌋.toNat)).1 ∧
    runAnneal exampleExp (initializeAnneal exampleProblem 42) 3 =
      runAnneal exampleExp (initializeAnneal exampleProblem 42) 3 :=
  c1_run_determinism exampleExp exampleProblem 42 3 _ _ rfl rfl

/-- The sanitizer never returns the all-zero seed pattern. -/
theorem sanitizeSeed_ne_zero (n : Int) : sanitizeSeed n ≠ 0 := by
  unfold sanitizeSeed
  by_cases h : (n % 4294967296).toNat = 0
  · simp [h]
  · simp [h]

/-- Every RNG draw produces a nonzero stored seed. -/
theorem nextRng_seed_ne_zero (r : AnnealRngState) : (nextRng r).2.seed ≠ 0 :=
  sanitizeSeed_ne_zero _

/-- `randInt` either returns its input state or a freshly drawn one. -/
theorem randInt_seed_ne_zero (m : Nat) (r : AnnealRngState) (h : r.seed ≠ 0) :
    (randInt m r).2.seed ≠ 0 := by
  unfold randInt
  by_cases hm : m = 0
  · simpa [hm] using h
  · simpa [hm] using nextRng_seed_ne_zero r

/-- The swap re-draw loop preserves a nonzero seed. -/
theorem resampleSwapIndex_seed_ne_zero (len a : Nat) :
    ∀ (fuel : Nat) (br : Nat × AnnealRngState), br.2.seed ≠ 0 →
      (resampleSwapIndex len a fuel br).2.seed ≠ 0 := by
  intro fuel
  induction fuel with
  | zero => intro br h; simpa [resampleSwapIndex] using h
  | succ n ih =>
      intro br h
      rcases br with ⟨b, rng⟩
      by_cases hb : b = a
      · simpa [resampleSwapIndex, hb] using
          ih (randInt len rng) (randInt_seed_ne_zero len rng h)
      · simpa [resampleSwapIndex, hb] using h

/-- The proposal never returns a zero post-proposal seed. -/
theorem proposeMove_seed_ne_zero (s : AnnealState) (h : s.rngState.seed ≠ 0) :
    (proposeMove s).rngStateAfterProposal.seed ≠ 0 := by
  unfold proposeMove
  have h1 := randInt_seed_ne_zero
    ([MoveTag.nudge, MoveTag.swap, MoveTag.reinsert] ++
      (if s.problem.enableBlockShift then [MoveTag.blockShift] else [])).length
    s.rngState h
  cases hmt : ([MoveTag.nudge, MoveTag.swap, MoveTag.reinsert] ++
      (if s.problem.enableBlockShift then [MoveTag.blockShift] else [])).getD
      (randInt ([MoveTag.nudge, MoveTag.swap, MoveTag.reinsert] ++
        (if s.problem.enableBlockShift then [MoveTag.blockShift] else [])).length
        s.rngState).1 MoveTag.nudge with
  | nudge =>
      simp only [hmt]
      exact randInt_seed_ne_zero _ _ (randInt_seed_ne_zero _ _ (randInt_seed_ne_zero _ _ h1))
  | swap =>
      simp only [hmt]
      by_cases hl : s.layout.length > 1
      · simp only [hl, if_true]
        exact resampleSwapIndex_seed_ne_zero _ _ _ _
          (randInt_seed_ne_zero _ _ (randInt_seed_ne_zero _ _ h1))
      · simp only [hl, if_false]
        exact randInt_seed_ne_zero _ _ (randInt_seed_ne_zero _ _ h1)
  | reinsert =>
      simp only [hmt]
      exact randInt_seed_ne_zero _ _ (randInt_seed_ne_zero _ _ h1)
  | blockShift =>
      simp only [hmt]
      exact randInt_seed_ne_zero _ _ (randInt_seed_ne_zero _ _ (randInt_seed_ne_zero _ _ h1))

/-- The acceptance decision keeps the seed nonzero: it either keeps the
candidate's state or advances it by one draw. -/
theorem acceptMove_rng_ne_zero (mexp : ℚ → ℚ) (s c : AnnealState)
    (h : c.rngState.seed ≠ 0) :
    (acceptMove mexp s c).after.rngState.seed ≠ 0 := by
  unfold acceptMove
  dsimp only
  split_ifs with h1 h2 h3
  · simpa using h
  · simpa using h
  · simpa using nextRng_seed_ne_zero c.rngState
  · simpa using nextRng_seed_ne_zero c.rngState

/-- C7 — the stored 32-bit RNG seed is never exactly zero in any reachable
session state: the sanitizer remaps a zero pattern to `0x6d2b79f5` at every
point a seed is produced (initialization and every draw), every draw
returns a fresh state rather than mutating its input (the embedding is by
value, so `nextRng` leaves its argument untouched), and a step maps a
session with nonzero seed to a session with nonzero seed. -/
theorem c7_seed_never_zero (mexp : ℚ → ℚ) (s : AnnealState)
    (h : s.rngState.seed ≠ 0) :
    (∀ n : Int, sanitizeSeed n ≠ 0) ∧
    (∀ (p : AnnealProblem) (seed : Int), (initializeAnneal p seed).rngState.seed ≠ 0) ∧
    (∀ r : AnnealRngState, (nextRng r).2.seed ≠ 0) ∧
    (proposeMove s).rngStateAfterProposal.seed ≠ 0 ∧
    ((stepAnneal mexp s).2).rngState.seed ≠ 0 := by
  refine ⟨sanitizeSeed_ne_zero, fun p seed => sanitizeSeed_ne_zero _,
    nextRng_seed_ne_zero, proposeMove_seed_ne_zero s h, ?_⟩
  have hc : (applyMove s (proposeMove s)).rngState.seed ≠ 0 :=
    proposeMove_seed_ne_zero s h
  exact acceptMove_rng_ne_zero mexp s _ hc

/-- C7 witness — the invariant theorem applied to a freshly initialized
session, seeded with 0 (which the sanitizer remaps). -/
theorem c7_witness :
    (Engine.initializeAnneal exampleProblem 0).rngState.seed ≠ 0 ∧
    ((Engine.stepAnneal exampleExp (Engine.initializeAnneal exampleProblem 0)).2).rngState.seed ≠ 0 :=
  ⟨by decide,
    (c7_seed_never_zero exampleExp (Engine.initializeAnneal exampleProblem 0)
      (by decide)).2.2.2.2⟩

/-- The sanitized seed pattern stays below `2^32`. -/
theorem sanitizeSeed_lt (n : Int) : sanitizeSeed n < 4294967296 := by
  unfold sanitizeSeed
  have h1 := Int.emod_lt_of_pos n (by norm_num : (0 : Int) < 4294967296)
  have h2 := Int.emod_nonneg n (by norm_num : (4294967296 : Int) ≠ 0)
  by_cases h : (n % 4294967296).toNat = 0
  · simp [h]
  · simp only [h, if_false]
    omega

/-- Every RNG draw yields a value in `[0, 1)`. -/
theorem nextRng_value_mem (r : AnnealRngState) :
    0 ≤ (nextRng r).1 ∧ (nextRng r).1 < 1 := by
  have hval : (nextRng r).1 = (((nextRng r).2.seed : ℚ) / 4294967296) := rfl
  have hlt : (nextRng r).2.seed < 4294967296 := sanitizeSeed_lt _
  constructor
  · rw [hval]
    positivity
  · rw [hval]
    rw [div_lt_one (by norm_num)]
    exact_mod_cast hlt

/-- C2 — the acceptance decision on a candidate produced by `applyMove`:
a strictly improving move is accepted with reason `improved` and no RNG
draw; an equal-cost move is accepted with reason `equal` and no RNG draw;
a worsening move draws exactly one value `u ∈ [0, 1)` from the candidate's
RNG state, is accepted iff `u < mexp(-deltaCost / max(temperature, 1e-12))`
(reason `metropolis`, otherwise `rejected`), and the resulting RNG state is
the advanced one whether or not the move was accepted. -/
theorem c2_acceptance_rule (mexp : ℚ → ℚ) (s : AnnealState) (move : AnnealMove)
    (candidate : AnnealState) (t : AnnealTransition) (deltaCost : ℚ)
    (hcand : candidate = applyMove s move)
    (ht : t = acceptMove mexp s candidate)
    (hd : deltaCost = candidate.costBreakdown.total - s.costBreakdown.total) :
    (deltaCost < 0 → t.accepted = true ∧ t.reason = AcceptReason.improved ∧
      t.after.rngState = candidate.rngState) ∧
    (deltaCost = 0 → t.accepted = true ∧ t.reason = AcceptReason.equal ∧
      t.after.rngState = candidate.rngState) ∧
    (0 < deltaCost →
      0 ≤ (nextRng candidate.rngState).1 ∧ (nextRng candidate.rngState).1 < 1 ∧
      t.after.rngState = (nextRng candidate.rngState).2 ∧
      (t.accepted = true ↔ (nextRng candidate.rngState).1 <
        mexp (-deltaCost / max s.temperature 0.000000000001)) ∧
      t.reason = (if t.accepted = true then AcceptReason.metropolis else AcceptReason.rejected)) := by
  subst hd
  subst ht
  refine ⟨?_, ?_, ?_⟩
  · intro hlt
    unfold acceptMove
    dsimp only
    rw [if_pos hlt]
    exact ⟨rfl, rfl, rfl⟩
  · intro heq
    have h1 : ¬ candidate.costBreakdown.total - s.costBreakdown.total < 0 := by
      rw [heq]
      norm_num
    unfold acceptMove
    dsimp only
    rw [if_neg h1, if_pos heq]
    exact ⟨rfl, rfl, rfl⟩
  · intro hpos
    have h1 : ¬ candidate.costBreakdown.total - s.costBreakdown.total < 0 :=
      not_lt_of_gt hpos
    have h2 : candidate.costBreakdown.total - s.costBreakdown.total ≠ 0 :=
      ne_of_gt hpos
    refine ⟨(nextRng_value_mem _).1, (nextRng_value_mem _).2, ?_, ?_, ?_⟩
    · unfold acceptMove
      dsimp only
      rw [if_neg h1, if_neg h2]
      by_cases h3 : (nextRng candidate.rngState).1 <
          mexp (-(candidate.costBreakdown.total - s.costBreakdown.total) /
            max s.temperature 0.000000000001)
      · rw [if_pos h3]
      · rw [if_neg h3]
    · unfold acceptMove
      dsimp only
      rw [if_neg h1, if_neg h2]
      by_cases h3 : (nextRng candidate.rngState).1 <
          mexp (-(candidate.costBreakdown.total - s.costBreakdown.total) /
            max s.temperature 0.000000000001)
      · rw [if_pos h3]
        simpa using h3
      · rw [if_neg h3]
        simpa using h3
    · unfold acceptMove
      dsimp only
      rw [if_neg h1, if_neg h2]
      by_cases h3 : (nextRng candidate.rngState).1 <
          mexp (-(candidate.costBreakdown.total - s.costBreakdown.total) /
            max s.temperature 0.000000000001)
      · rw [if_pos h3]
        simp
      · rw [if_neg h3]
        simp

/-- C2 witness — the rule applied to a concrete worsening nudge: the
candidate costs 1 more than the current layout, one draw decides, and the
session's RNG state advances by exactly that draw. -/
theorem c2_witness :
    (0 : ℚ) < (applyMove c2State c2Move).costBreakdown.total - c2State.costBreakdown.total ∧
    ((acceptMove exampleExp c2State (applyMove c2State c2Move)).after.rngState =
      (nextRng (applyMove c2State c2Move).rngState).2 ∧
      ((acceptMove exampleExp c2State (applyMove c2State c2Move)).accepted = true ↔
        (nextRng (applyMove c2State c2Move).rngState).1 <
          exampleExp (-((applyMove c2State c2Move).costBreakdown.total -
            c2State.costBreakdown.total) / max c2State.temperature 0.000000000001))) := by
  have hpos : (0 : ℚ) <
      (applyMove c2State c2Move).costBreakdown.total - c2State.costBreakdown.total := by
    norm_num [c2State, c2Move, Engine.applyMove, Engine.initializeAnneal, exampleProblem]
  have main := (c2_acceptance_rule exampleExp c2State c2Move _ _ _ rfl rfl rfl).2.2 hpos
  exact ⟨hpos, main.2.2.1, main.2.2.2.1⟩

/-- The per-step temperature recurrence, exactly as the source computes it. -/
theorem stepAnneal_temperature (mexp : ℚ → ℚ) (s : AnnealState) :
    ((stepAnneal mexp s).2).temperature =
      max (s.problem.minTemperature.getD DEFAULT_MIN_TEMPERATURE)
        (s.temperature * s.problem.coolingRate.getD DEFAULT_COOLING_RATE) := rfl

/-- A step never changes the problem configuration. -/
theorem stepAnneal_problem (mexp : ℚ → ℚ) (s : AnnealState) :
    ((stepAnneal mexp s).2).problem = s.problem := rfl

/-- The transition records the pre- and post-step temperatures. -/
theorem stepAnneal_transition_temperature (mexp : ℚ → ℚ) (s : AnnealState) :
    ((stepAnneal mexp s).1).before.temperature = s.temperature ∧
    ((stepAnneal mexp s).1).after.temperature = ((stepAnneal mexp s).2).temperature :=
  ⟨rfl, rfl⟩

/-- C5 counterexample — with a configured initial temperature of 0 (the
initializer clamps only to ≥ 0) the first step *raises* the temperature to
the default `minTemperature = 1e-4`, so over such a run the temperature is
not non-increasing. -/
theorem c5_counterexample_temperature_increases :
    (Engine.initializeAnneal zeroTempProblem 1).temperature <
      ((Engine.stepAnneal exampleExp (Engine.initializeAnneal zeroTempProblem 1)).2).temperature := by
  rw [stepAnneal_temperature]
  have h0 : (Engine.initializeAnneal zeroTempProblem 1).temperature = 0 := by
    norm_num [Engine.initializeAnneal, zeroTempProblem]
  rw [h0, lt_max_iff]
  left
  norm_num [Engine.initializeAnneal, zeroTempProblem, Engine.DEFAULT_MIN_TEMPERATURE]

/-- `cool` under the amended hypotheses: never above the input, never below
the floor. -/
theorem cool_le (p : AnnealProblem) (t : ℚ)
    (hcr0 : 0 ≤ p.coolingRate.getD DEFAULT_COOLING_RATE)
    (hcr1 : p.coolingRate.getD DEFAULT_COOLING_RATE ≤ 1)
    (hmt : 0 ≤ p.minTemperature.getD DEFAULT_MIN_TEMPERATURE)
    (ht : p.minTemperature.getD DEFAULT_MIN_TEMPERATURE ≤ t) :
    cool p t ≤ t ∧ p.minTemperature.getD DEFAULT_MIN_TEMPERATURE ≤ cool p t := by
  unfold cool
  constructor
  · refine max_le ht ?_
    calc t * p.coolingRate.getD DEFAULT_COOLING_RATE ≤ t * 1 :=
          mul_le_mul_of_nonneg_left hcr1 (le_trans hmt ht)
      _ = t := mul_one t
  · exact le_max_left _ _

/-- C5 (amended) — each step sets
`temperature' = max(minTemperature, temperature * coolingRate)` (defaults
`1e-4` and `0.995`), and over any run whose starting temperature is at
least `minTemperature`, with `0 ≤ coolingRate ≤ 1` and `minTemperature ≥ 0`
(all satisfied by the defaults), every transition's temperature is
non-increasing and never drops below `minTemperature`.  (The unamended
claim fails when the configured initial temperature is below
`minTemperature`: the first step then raises it to the floor.) -/
theorem c5_amended_cooling (mexp : ℚ → ℚ) (s : AnnealState) (n : Nat)
    (hcr0 : 0 ≤ s.problem.coolingRate.getD DEFAULT_COOLING_RATE)
    (hcr1 : s.problem.coolingRate.getD DEFAULT_COOLING_RATE ≤ 1)
    (hmt : 0 ≤ s.problem.minTemperature.getD DEFAULT_MIN_TEMPERATURE)
    (ht : s.problem.minTemperature.getD DEFAULT_MIN_TEMPERATURE ≤ s.temperature) :
    ∀ t ∈ (runAnnealSteps mexp s n).1,
      t.after.temperature =
        max (s.problem.minTemperature.getD DEFAULT_MIN_TEMPERATURE)
          (t.before.temperature * s.problem.coolingRate.getD DEFAULT_COOLING_RATE) ∧
      t.after.temperature ≤ t.before.temperature ∧
      s.problem.minTemperature.getD DEFAULT_MIN_TEMPERATURE ≤ t.after.temperature := by
  induction n generalizing s with
  | zero => intro t htmem; simp [runAnnealSteps] at htmem
  | succ n ih =>
      intro t htmem
      have hcool := cool_le s.problem s.temperature hcr0 hcr1 hmt ht
      have hstep : ((stepAnneal mexp s).2).temperature = cool s.problem s.temperature := rfl
      rcases List.mem_cons.mp (by simpa [runAnnealSteps] using htmem) with h | h
      · subst h
        refine ⟨rfl, ?_, ?_⟩
        · exact hcool.1
        · exact hcool.2
      · have hproblem : ((stepAnneal mexp s).2).problem = s.problem := rfl
        have := ih ((stepAnneal mexp s).2)
          (by rw [hproblem]; exact hcr0)
          (by rw [hproblem]; exact hcr1)
          (by rw [hproblem]; exact hmt)
          (by rw [hproblem, hstep]; exact hcool.2)
          t h
        rwa [hproblem] at this

/-- C5 witness — the amended theorem applied to a default-configured
session (initial temperature 10 ≥ 1e-4) at the first transition of a
one-step run. -/
theorem c5_witness :
    ((stepAnneal exampleExp (Engine.initializeAnneal exampleProblem 9)).1).after.temperature =
      max ((Engine.initializeAnneal exampleProblem 9).problem.minTemperature.getD
        DEFAULT_MIN_TEMPERATURE)
        (((stepAnneal exampleExp (Engine.initializeAnneal exampleProblem 9)).1).before.temperature *
          (Engine.initializeAnneal exampleProblem 9).problem.coolingRate.getD
            DEFAULT_COOLING_RATE) ∧
    ((stepAnneal exampleExp (Engine.initializeAnneal exampleProblem 9)).1).after.temperature ≤
      ((stepAnneal exampleExp (Engine.initializeAnneal exampleProblem 9)).1).before.temperature ∧
    (Engine.initializeAnneal exampleProblem 9).problem.minTemperature.getD
      DEFAULT_MIN_TEMPERATURE ≤
      ((stepAnneal exampleExp (Engine.initializeAnneal exampleProblem 9)).1).after.temperature :=
  c5_amended_cooling exampleExp (Engine.initializeAnneal exampleProblem 9) 1
    (by norm_num [exampleProblem, Engine.initializeAnneal, DEFAULT_COOLING_RATE])
    (by norm_num [exampleProblem, Engine.initializeAnneal, DEFAULT_COOLING_RATE])
    (by norm_num [exampleProblem, Engine.initializeAnneal, DEFAULT_MIN_TEMPERATURE])
    (by norm_num [exampleProblem, Engine.initializeAnneal, DEFAULT_MIN_TEMPERATURE,
      DEFAULT_INITIAL_TEMPERATURE])
    ((stepAnneal exampleExp (Engine.initializeAnneal exampleProblem 9)).1)
    (by simp [Engine.runAnnealSteps])

end EngineTheorems

section RingTheorems

open Engine

/-- `appendTransition` changes the buffer exactly by `ringAppend`. -/
theorem appendTransition_buffer (s : AnnealState) (t : AnnealTransition) :
    (appendTransition s t).transitionBuffer = ringAppend s.transitionBuffer t := rfl

/-- A step appends exactly its transition to the buffer. -/
theorem stepAnneal_buffer (mexp : ℚ → ℚ) (s : AnnealState) :
    ((stepAnneal mexp s).2).transitionBuffer =
      ringAppend s.transitionBuffer (stepAnneal mexp s).1 := rfl

/-- The run loop produces one transition per step and appends them to the
buffer in order. -/
theorem runAnnealSteps_buffer (mexp : ℚ → ℚ) (s : AnnealState) (n : Nat) :
    (runAnnealSteps mexp s n).1.length = n ∧
    ((runAnnealSteps mexp s n).2).transitionBuffer =
      (runAnnealSteps mexp s n).1.foldl ringAppend s.transitionBuffer := by
  induction n generalizing s with
  | zero => exact ⟨rfl, rfl⟩
  | succ n ih =>
      refine ⟨?_, ?_⟩
      · show ((stepAnneal mexp s).1 ::
            (runAnnealSteps mexp (stepAnneal mexp s).2 n).1).length = n + 1
        simp [(ih (stepAnneal mexp s).2).1]
      · show ((runAnnealSteps mexp (stepAnneal mexp s).2 n).2).transitionBuffer =
          ((stepAnneal mexp s).1 :: (runAnnealSteps mexp (stepAnneal mexp s).2 n).1).foldl
            ringAppend s.transitionBuffer
        rw [List.foldl_cons, ← stepAnneal_buffer]
        exact (ih (stepAnneal mexp s).2).2

/-- The empty buffer satisfies the representation invariant. -/
theorem ringInv_empty (C : Nat) : RingInv C [] (makeRingBuffer C) := by
  refine ⟨rfl, List.length_replicate _ _, by simp [makeRingBuffer], by simp [makeRingBuffer], ?_⟩
  intro i hi
  simp at hi

/-- One `ringAppend` preserves the representation invariant. -/
theorem ringInv_append (C : Nat) (hC : 1 ≤ C) (ts : List AnnealTransition)
    (r : TransitionRingBuffer) (t : AnnealTransition) (h : RingInv C ts r) :
    RingInv C (ts ++ [t]) (ringAppend r t) := by
  obtain ⟨hcap, hlen, hhead, hsize, hslots⟩ := h
  have hN1 : (ts ++ [t]).length = ts.length + 1 := by simp
  have hheadlt : r.head < C := by
    rw [hhead]
    exact Nat.mod_lt _ (by omega)
  refine ⟨hcap, ?_, ?_, ?_, ?_⟩
  · simpa [ringAppend, List.length_set] using hlen
  · show (r.head + 1) % r.capacity = (ts ++ [t]).length % C
    rw [hcap, hhead, hN1]
    exact Nat.mod_add_mod ts.length C 1
  · show min (r.size + 1) r.capacity = min (ts ++ [t]).length C
    rw [hcap, hsize, hN1]
    omega
  · intro i hi
    rw [hN1] at hi ⊢
    show (r.entries.set r.head (some t))[(((ts.length + 1) % C) +
        (C - min (ts.length + 1) C) + i) % C]? =
      some ((ts ++ [t])[ts.length + 1 - min (ts.length + 1) C + i]?)
    by_cases hlast : i + 1 = min (ts.length + 1) C
    · -- the slot just written
      have hidx : (((ts.length + 1) % C) + (C - min (ts.length + 1) C) + i) % C =
          r.head := by
        rw [hhead]
        have h1 : (C - min (ts.length + 1) C) + i = C - 1 := by omega
        rw [Nat.add_assoc, h1, Nat.mod_add_mod]
        have h2 : ts.length + 1 + (C - 1) = ts.length + C := by omega
        rw [h2, Nat.add_mod_right]
      rw [hidx]
      have hpos : ts.length + 1 - min (ts.length + 1) C + i = ts.length := by omega
      rw [hpos, List.getElem?_concat_length]
      rw [List.getElem?_set_self (by rw [hlen]; exact hheadlt)]
    · -- an older slot, untouched by the write
      have hilt : i + 1 < min (ts.length + 1) C := by omega
      have hksmall : 1 + i + (C - min (ts.length + 1) C) < C := by omega
      have hkpos : 0 < 1 + i + (C - min (ts.length + 1) C) := by omega
      have harith : (((ts.length + 1) % C) + (C - min (ts.length + 1) C) + i) % C =
          (ts.length + (1 + i + (C - min (ts.length + 1) C))) % C := by
        rw [Nat.add_assoc, Nat.mod_add_mod]
        congr 1
        omega
      have hne : r.head ≠ (((ts.length + 1) % C) +
          (C - min (ts.length + 1) C) + i) % C := by
        rw [hhead, harith]
        intro hcon
        have hmod : (ts.length + (1 + i + (C - min (ts.length + 1) C))) % C =
            ts.length % C := hcon.symm
        have hdvd : C ∣ (1 + i + (C - min (ts.length + 1) C)) := by
          have hmeq : Nat.ModEq C ts.length
              (ts.length + (1 + i + (C - min (ts.length + 1) C))) :=
            Nat.ModEq.symm hmod
          have := (Nat.modEq_iff_dvd' (Nat.le_add_right _ _)).mp hmeq
          simpa using this
        exact absurd (Nat.le_of_dvd hkpos hdvd) (by omega)
      rw [List.getElem?_set_ne hne]
      have hslot : (((ts.length + 1) % C) + (C - min (ts.length + 1) C) + i) % C =
          ((ts.length % C) + (C - min ts.length C) +
            (i + 1 + min ts.length C - min (ts.length + 1) C)) % C := by
        rw [harith]
        conv_rhs => rw [Nat.add_assoc, Nat.mod_add_mod]
        congr 1
        omega
      have hiold : i + 1 + min ts.length C - min (ts.length + 1) C < min ts.length C := by
        omega
      rw [hslot, hslots _ hiold]
      have hposlt : ts.length + 1 - min (ts.length + 1) C + i < ts.length := by omega
      rw [List.getElem?_append_left hposlt]
      congr 2
      omega

/-- Folding a transition list into a buffer preserves the invariant. -/
theorem ringInv_foldl (C : Nat) (hC : 1 ≤ C) :
    ∀ (app : List AnnealTransition) (ts : List AnnealTransition)
      (r : TransitionRingBuffer), RingInv C ts r →
      RingInv C (ts ++ app) (app.foldl ringAppend r) := by
  intro app
  induction app with
  | nil => intro ts r h; simpa using h
  | cons a l ih =>
      intro ts r h
      have h1 := ringInv_append C hC ts r a h
      have h2 := ih (ts ++ [a]) _ h1
      simpa using h2

/-- `filterMap` of an everywhere-`some` function is a `map`. -/
theorem filterMap_eq_map_of_mem {α β : Type} (L : List α) (f : α → Option β)
    (g : α → β) (h : ∀ a ∈ L, f a = some (g a)) : L.filterMap f = L.map g := by
  induction L with
  | nil => rfl
  | cons a l ih =>
      rw [List.filterMap_cons, h a (List.mem_cons_self _ _), List.map_cons,
        ih (fun b hb => h b (List.mem_cons_of_mem _ hb))]

/-- Reading `k` consecutive positions from `m` is `drop m` when they reach
the end of the list. -/
theorem range_map_getD_eq_drop {α : Type} [Inhabited α] (l : List α) :
    ∀ (k m : Nat), m + k = l.length →
      (List.range k).map (fun i => l.getD (m + i) default) = l.drop m := by
  intro k
  induction k with
  | zero =>
      intro m hm
      rw [List.range_zero, List.map_nil]
      exact (List.drop_eq_nil_of_le (by omega)).symm
  | succ k ih =>
      intro m hm
      have hmlt : m < l.length := by omega
      rw [List.range_succ_eq_map, List.map_cons, List.map_map,
        List.drop_eq_getElem_cons hmlt]
      congr 1
      · simp [List.getD_eq_getElem?_getD, List.getElem?_eq_getElem hmlt]
      · have hcomp : ((fun i => l.getD (m + i) default) ∘ Nat.succ) =
            (fun i => l.getD (m + 1 + i) default) := by
          funext i
          simp only [Function.comp]
          congr 1
          omega
        rw [hcomp]
        exact ih (m + 1) (by omega)

/-- The export index formula (via JS int arithmetic) equals its natural
form. -/
theorem exportIndex_eq (head size i C : Nat) (hC : 1 ≤ C) (hsz : size ≤ C) :
    (((head : Int) - size + i + C) % (C : Int)).toNat =
      (head + (C - size) + i) % C := by
  have h1 : ((head : Int) - size + i + C) = ((head + (C - size) + i : Nat) : Int) := by
    push_cast [Nat.cast_sub hsz]
    ring
  rw [h1, ← Int.natCast_mod, Int.toNat_natCast]

/-- A buffer satisfying the invariant exports the newest `min N C`
transitions, oldest first. -/
theorem export_of_ringInv (C : Nat) (hC : 1 ≤ C) (ts : List AnnealTransition)
    (s : AnnealState) (h : RingInv C ts s.transitionBuffer) :
    exportTransitionRing s = ts.drop (ts.length - min ts.length C) := by
  obtain ⟨hcap, hlen, hhead, hsize, hslots⟩ := h
  simp only [exportTransitionRing]
  refine (filterMap_eq_map_of_mem _ _
    (fun i => ts.getD (ts.length - min ts.length C + i) default) ?_).trans ?_
  · intro i hi
    rw [List.mem_range, hsize] at hi
    have hszle : min ts.length C ≤ C := min_le_right _ _
    rw [hcap, hhead, hsize]
    rw [exportIndex_eq (ts.length % C) (min ts.length C) i C hC hszle]
    rw [List.getD_eq_getElem?_getD, hslots i hi]
    have hposlt : ts.length - min ts.length C + i < ts.length := by omega
    simp [List.getD_eq_getElem?_getD, List.getElem?_eq_getElem hposlt]
  · rw [hsize]
    exact range_map_getD_eq_drop ts (min ts.length C) (ts.length - min ts.length C) (by omega)

/-- C6 — after `n` steps on a freshly initialized session whose ring buffer
has capacity `C = max(1, configured size)`, the export returns exactly
`min(n, C)` transitions, oldest first, equal to the last `min(n, C)`
transitions of the run in step order, wraparound included. -/
theorem c6_ring_buffer_export (mexp : ℚ → ℚ) (problem : AnnealProblem)
    (seed : Int) (n : Nat) :
    (runAnnealSteps mexp (initializeAnneal problem seed) n).1.length = n ∧
    exportTransitionRing (runAnnealSteps mexp (initializeAnneal problem seed) n).2 =
      (runAnnealSteps mexp (initializeAnneal problem seed) n).1.drop
        (n - min n (max 1 (problem.transitionBufferSize.getD DEFAULT_TRANSITION_BUFFER_SIZE))) ∧
    (exportTransitionRing (runAnnealSteps mexp (initializeAnneal problem seed) n).2).length =
      min n (max 1 (problem.transitionBufferSize.getD DEFAULT_TRANSITION_BUFFER_SIZE)) := by
  have hC : 1 ≤ max 1 (problem.transitionBufferSize.getD DEFAULT_TRANSITION_BUFFER_SIZE) :=
    le_max_left _ _
  have hrun := runAnnealSteps_buffer mexp (initializeAnneal problem seed) n
  have hinv0 : RingInv (max 1 (problem.transitionBufferSize.getD DEFAULT_TRANSITION_BUFFER_SIZE))
      [] (initializeAnneal problem seed).transitionBuffer :=
    ringInv_empty _
  have hinv := ringInv_foldl _ hC (runAnnealSteps mexp (initializeAnneal problem seed) n).1
    [] _ hinv0
  rw [← hrun.2] at hinv
  simp only [List.nil_append] at hinv
  have hexp := export_of_ringInv _ hC _ _ hinv
  rw [hrun.1] at hexp
  refine ⟨hrun.1, hexp, ?_⟩
  rw [hexp, List.length_drop, hrun.1]
  omega

end RingTheorems

section RouterTheorems

open Router

/-- C10 — `evaluateRouteCost` counts a crossing for a vertical segment and
a horizontal segment of *different* edges exactly when the vertical's `x`
lies in the horizontal's `x`-span and the horizontal's `y` lies in the
vertical's `y`-span, both with *inclusive* boundaries — so segments that
merely touch at a shared point (T-junction or shared endpoint) count — and
each crossing contributes `20` to `total = length + 5*bends +
20*crossings`. -/
theorem c10_inclusive_crossing_rule (id1 id2 : String) (vx vy1 vy2 hx1 hx2 hy : ℚ)
    (hid : id1 ≠ id2) (hh : hx1 ≠ hx2) :
    (evaluateRouteCost [⟨id1, [⟨vx, vy1⟩, ⟨vx, vy2⟩]⟩,
        ⟨id2, [⟨hx1, hy⟩, ⟨hx2, hy⟩]⟩]).crossings =
      (if min hx1 hx2 ≤ vx ∧ vx ≤ max hx1 hx2 ∧ min vy1 vy2 ≤ hy ∧ hy ≤ max vy1 vy2
        then 1 else 0) ∧
    (evaluateRouteCost [⟨id1, [⟨vx, vy1⟩, ⟨vx, vy2⟩]⟩,
        ⟨id2, [⟨hx1, hy⟩, ⟨hx2, hy⟩]⟩]).total =
      (evaluateRouteCost [⟨id1, [⟨vx, vy1⟩, ⟨vx, vy2⟩]⟩,
        ⟨id2, [⟨hx1, hy⟩, ⟨hx2, hy⟩]⟩]).length +
      (evaluateRouteCost [⟨id1, [⟨vx, vy1⟩, ⟨vx, vy2⟩]⟩,
        ⟨id2, [⟨hx1, hy⟩, ⟨hx2, hy⟩]⟩]).bends * 5 +
      (evaluateRouteCost [⟨id1, [⟨vx, vy1⟩, ⟨vx, vy2⟩]⟩,
        ⟨id2, [⟨hx1, hy⟩, ⟨hx2, hy⟩]⟩]).crossings * 20 := by
  constructor
  · show ((segmentCrossings [⟨id1, [⟨vx, vy1⟩, ⟨vx, vy2⟩]⟩,
        ⟨id2, [⟨hx1, hy⟩, ⟨hx2, hy⟩]⟩] : Nat) : ℚ) = _
    have hcross : segmentCrossings [⟨id1, [⟨vx, vy1⟩, ⟨vx, vy2⟩]⟩,
        ⟨id2, [⟨hx1, hy⟩, ⟨hx2, hy⟩]⟩] =
        if min hx1 hx2 ≤ vx ∧ vx ≤ max hx1 hx2 ∧ min vy1 vy2 ≤ hy ∧ hy ≤ max vy1 vy2
          then 1 else 0 := by
      show Router.countPairs [⟨⟨vx, vy1⟩, ⟨vx, vy2⟩, id1⟩, ⟨⟨hx1, hy⟩, ⟨hx2, hy⟩, id2⟩] = _
      simp only [Router.countPairs, List.countP_cons, List.countP_nil]
      simp [Router.crossesPair, hid, hh]
    rw [hcross]
    by_cases hcond : min hx1 hx2 ≤ vx ∧ vx ≤ max hx1 hx2 ∧
        min vy1 vy2 ≤ hy ∧ hy ≤ max vy1 vy2
    · simp [hcond]
    · simp [hcond]
  · rfl

/-- C10 witness — two perpendicular unit segments of different edges that
share only the endpoint `(2, 0)` (a T-junction corner) are counted as one
crossing and contribute 20 to the total (`length 5 + bends 0 + 20`). -/
theorem c10_witness :
    (evaluateRouteCost [⟨"a", [⟨2, 0⟩, ⟨2, 3⟩]⟩, ⟨"b", [⟨0, 0⟩, ⟨2, 0⟩]⟩]).crossings = 1 ∧
    (evaluateRouteCost [⟨"a", [⟨2, 0⟩, ⟨2, 3⟩]⟩, ⟨"b", [⟨0, 0⟩, ⟨2, 0⟩]⟩]).total = 25 := by
  have h := c10_inclusive_crossing_rule "a" "b" 2 0 3 0 2 0 (by decide) (by decide)
  have hcr : (evaluateRouteCost [⟨"a", [⟨2, 0⟩, ⟨2, 3⟩]⟩,
      ⟨"b", [⟨0, 0⟩, ⟨2, 0⟩]⟩]).crossings = 1 := by
    rw [h.1]
    norm_num
  refine ⟨hcr, ?_⟩
  rw [h.2, hcr]
  norm_num [evaluateRouteCost]

/-- The code-point collator as a ≤ test. -/
theorem codePointCompare_le_zero_iff (a b : String) :
    Router.codePointCompare a b ≤ 0 ↔ a ≤ b := by
  unfold Router.codePointCompare
  split_ifs with h1 h2
  · exact iff_of_true (by norm_num) (le_of_lt h1)
  · exact iff_of_false (by norm_num) (not_le.mpr h2)
  · exact iff_of_true le_rfl (le_of_not_lt h2)

/-- Sorting by a consistent environment comparator is permutation-invariant
whenever the comparator separates the ids that occur (no tie between
distinct present ids): the sorted list is then uniquely determined. -/
theorem mergeSort_eq_of_separating (lc : String → String → Int)
    (htrans : ∀ a b c : String, lc a b ≤ 0 → lc b c ≤ 0 → lc a c ≤ 0)
    (htotal : ∀ a b : String, lc a b ≤ 0 ∨ lc b a ≤ 0)
    (l1 l2 : List DraftRouterEdge)
    (hsep : ∀ a b : DraftRouterEdge, a ∈ l1 → b ∈ l1 →
      lc a.id b.id ≤ 0 → lc b.id a.id ≤ 0 → a.id = b.id)
    (hperm : l1.Perm l2) (hnodup : (l1.map (fun e => e.id)).Nodup) :
    l1.mergeSort (fun a b => decide (lc a.id b.id ≤ 0)) =
      l2.mergeSort (fun a b => decide (lc a.id b.id ≤ 0)) := by
  have hperm12 : (l1.mergeSort (fun a b => decide (lc a.id b.id ≤ 0))).Perm
      (l2.mergeSort (fun a b => decide (lc a.id b.id ≤ 0))) :=
    (List.mergeSort_perm l1 _).trans (hperm.trans (List.mergeSort_perm l2 _).symm)
  have htransB : ∀ (a b c : DraftRouterEdge),
      (fun a b => decide (lc a.id b.id ≤ 0)) a b = true →
      (fun a b => decide (lc a.id b.id ≤ 0)) b c = true →
      (fun a b => decide (lc a.id b.id ≤ 0)) a c = true := by
    intro a b c hab hbc
    simp only [decide_eq_true_eq] at hab hbc ⊢
    exact htrans _ _ _ hab hbc
  have htotalB : ∀ (a b : DraftRouterEdge),
      ((fun a b => decide (lc a.id b.id ≤ 0)) a b ||
        (fun a b => decide (lc a.id b.id ≤ 0)) b a) = true := by
    intro a b
    simp only [Bool.or_eq_true, decide_eq_true_eq]
    exact htotal a.id b.id
  have hsorted : ∀ (l : List DraftRouterEdge),
      (l.mergeSort (fun a b => decide (lc a.id b.id ≤ 0))).Pairwise
        (fun a b => lc a.id b.id ≤ 0) := by
    intro l
    have h := List.sorted_mergeSort htransB htotalB l
    exact h.imp (by
      intro a b hab
      simpa using hab)
  have hstrict : ∀ (l : List DraftRouterEdge),
      (∀ a b : DraftRouterEdge, a ∈ l → b ∈ l →
        lc a.id b.id ≤ 0 → lc b.id a.id ≤ 0 → a.id = b.id) →
      (l.map (fun e => e.id)).Nodup →
      (l.mergeSort (fun a b => decide (lc a.id b.id ≤ 0))).Pairwise
        (fun a b => lc a.id b.id ≤ 0 ∧ ¬ lc b.id a.id ≤ 0) := by
    intro l hsepl hnd
    have hnds : ((l.mergeSort (fun a b => decide (lc a.id b.id ≤ 0))).map
        (fun e => e.id)).Nodup :=
      (((List.mergeSort_perm l _).map (fun e => e.id)).nodup_iff).mpr hnd
    have hne : (l.mergeSort (fun a b => decide (lc a.id b.id ≤ 0))).Pairwise
        (fun a b => a.id ≠ b.id) := List.pairwise_map.mp hnds
    refine List.Pairwise.imp_of_mem ?_ ((hsorted l).and hne)
    intro a b hma hmb hab
    have hal : a ∈ l := ((List.mergeSort_perm l _).mem_iff).mp hma
    have hbl : b ∈ l := ((List.mergeSort_perm l _).mem_iff).mp hmb
    refine ⟨hab.1, fun hba => hab.2 (hsepl a b hal hbl hab.1 hba)⟩
  have hsep2 : ∀ a b : DraftRouterEdge, a ∈ l2 → b ∈ l2 →
      lc a.id b.id ≤ 0 → lc b.id a.id ≤ 0 → a.id = b.id := by
    intro a b ha hb
    exact hsep a b (hperm.mem_iff.mpr ha) (hperm.mem_iff.mpr hb)
  have hnd2 : (l2.map (fun e => e.id)).Nodup :=
    ((hperm.map (fun e => e.id)).nodup_iff).mp hnodup
  haveI : IsAntisymm DraftRouterEdge
      (fun a b => lc a.id b.id ≤ 0 ∧ ¬ lc b.id a.id ≤ 0) :=
    ⟨fun a b h1 h2 => absurd h2.1 h1.2⟩
  exact List.eq_of_perm_of_sorted hperm12 (hstrict l1 hsep hnodup) (hstrict l2 hsep2 hnd2)

unseal List.merge List.mergeSort in
/-- C8 counterexample — the claim fails as stated: `routeDraft` orders
edges with the environment collator, and an ECMA-402 default collator ties
the distinct, canonically equivalent ids U+00E4 and `"a"+U+0308`.  The
stable sort then keeps the input order, so reversing the two-edge input
changes the returned routes. -/
theorem c8_counterexample_locale_tie_order_dependence :
    (routeDraft tieLocaleCompare ⟨[tieEdgeA, tieEdgeB], none, none, none, none⟩).routes.map
        (fun r => r.id) = [tieEdgeA.id, tieEdgeB.id] ∧
    (routeDraft tieLocaleCompare ⟨[tieEdgeB, tieEdgeA], none, none, none, none⟩).routes.map
        (fun r => r.id) = [tieEdgeB.id, tieEdgeA.id] ∧
    tieEdgeA.id ≠ tieEdgeB.id ∧
    routeDraft tieLocaleCompare ⟨[tieEdgeA, tieEdgeB], none, none, none, none⟩ ≠
      routeDraft tieLocaleCompare ⟨[tieEdgeB, tieEdgeA], none, none, none, none⟩ := by
  have h1 : (routeDraft tieLocaleCompare
      ⟨[tieEdgeA, tieEdgeB], none, none, none, none⟩).routes.map
        (fun r => r.id) = [tieEdgeA.id, tieEdgeB.id] := by decide
  have h2 : (routeDraft tieLocaleCompare
      ⟨[tieEdgeB, tieEdgeA], none, none, none, none⟩).routes.map
        (fun r => r.id) = [tieEdgeB.id, tieEdgeA.id] := by decide
  have h3 : tieEdgeA.id ≠ tieEdgeB.id := by decide
  refine ⟨h1, h2, h3, ?_⟩
  intro h
  have hc := congrArg
    (fun res : DraftRouterResult => res.routes.map (fun r => r.id)) h
  dsimp only at hc
  rw [h1, h2] at hc
  simp only [List.cons.injEq] at hc
  exact h3 hc.1

/-- C8 (amended) — `routeDraft` processes edges in the order induced by
the environment collator (`localeCompare`); for every consistent comparator
(the induced ≤ on ids is transitive and total) that separates the ids of
the input (no tie between distinct present ids), permuting the input edge
array leaves the full result (routes and route cost) unchanged. -/
theorem c8_amended_order_independent (lc : String → String → Int)
    (edges1 edges2 : List DraftRouterEdge)
    (obstacles : Option (List GridRect)) (blockedCells : Option (List GridPoint))
    (gridStep obstaclePadding : Option ℚ)
    (htrans : ∀ a b c : String, lc a b ≤ 0 → lc b c ≤ 0 → lc a c ≤ 0)
    (htotal : ∀ a b : String, lc a b ≤ 0 ∨ lc b a ≤ 0)
    (hsep : ∀ a b : DraftRouterEdge, a ∈ edges1 → b ∈ edges1 →
      lc a.id b.id ≤ 0 → lc b.id a.id ≤ 0 → a.id = b.id)
    (hperm : edges1.Perm edges2) (hnodup : (edges1.map (fun e => e.id)).Nodup) :
    routeDraft lc ⟨edges1, obstacles, blockedCells, gridStep, obstaclePadding⟩ =
      routeDraft lc ⟨edges2, obstacles, blockedCells, gridStep, obstaclePadding⟩ := by
  have hs := mergeSort_eq_of_separating lc htrans htotal edges1 edges2 hsep hperm hnodup
  simp only [routeDraft]
  rw [hs]

/-- C8 witness — under the code-point collator (which never ties distinct
ids), reversing a concrete two-edge input leaves the result unchanged. -/
theorem c8_witness :
    routeDraft Router.codePointCompare
        ⟨[⟨"a", ⟨0, 0⟩, ⟨1, 0⟩⟩, ⟨"b", ⟨0, 1⟩, ⟨1, 1⟩⟩], none, none, none, none⟩ =
      routeDraft Router.codePointCompare
        ⟨[⟨"b", ⟨0, 1⟩, ⟨1, 1⟩⟩, ⟨"a", ⟨0, 0⟩, ⟨1, 0⟩⟩], none, none, none, none⟩ :=
  c8_amended_order_independent Router.codePointCompare _ _ none none none none
    (fun a b c hab hbc => (codePointCompare_le_zero_iff a c).mpr
      (le_trans ((codePointCompare_le_zero_iff a b).mp hab)
        ((codePointCompare_le_zero_iff b c).mp hbc)))
    (fun a b => (le_total a b).imp (codePointCompare_le_zero_iff a b).mpr
      (codePointCompare_le_zero_iff b a).mpr)
    (fun a b _ _ hab hba => le_antisymm ((codePointCompare_le_zero_iff a.id b.id).mp hab)
      ((codePointCompare_le_zero_iff b.id a.id).mp hba))
    (List.Perm.swap (⟨"b", ⟨0, 1⟩, ⟨1, 1⟩⟩ : DraftRouterEdge)
      (⟨"a", ⟨0, 0⟩, ⟨1, 0⟩⟩ : DraftRouterEdge) [])
    (by decide)

end RouterTheorems

section FacadeTheorems

open Facade

/-- The hybrid loop's per-step precise-router invocations follow the
spec-side cadence recurrence: the trace entry at a step carries a precise
cost exactly when the recurrence says the precise router fires there. -/
theorem hybridLoop_flags (lc : String → String → Int) (every : Int) (total : Nat)
    (score : Option (Router.RouteCost → ℚ)) :
    ∀ (steps : List RouterStep) (i : Nat) (c : Int) (sel : RouterSelected)
      (trace : List RouteDebugTrace),
      (hybridLoop lc every total score i c sel trace steps).2.map
          (fun e => e.elkCost.isSome) =
        trace.map (fun e => e.elkCost.isSome) ++ cadenceSpecLoop every total i c steps := by
  intro steps
  induction steps with
  | nil =>
      intro i c sel trace
      simp [hybridLoop, cadenceSpecLoop]
  | cons step rest ih =>
      intro i c sel trace
      rcases hstep : step.elk with - | elkStep
      · simp only [hybridLoop, cadenceSpecLoop, hstep]
        rw [ih]
        simp
      · by_cases hcond : (if step.accepted.getD false then c + 1 else c) ≥ every ∨
            i = total - 1
        · simp only [hybridLoop, cadenceSpecLoop, hstep, if_pos hcond]
          rw [ih]
          simp [hcond]
        · simp only [hybridLoop, cadenceSpecLoop, hstep, if_neg hcond]
          rw [ih]
          simp [hcond]

/-- C9 — in hybrid mode the precise router is invoked on a step exactly
when a precise router is attached to that step and either the count of
accepted steps since the last precise invocation (the current step
included) has reached the cadence `max(1, ⌊configured⌋)` (default 10) or
the step is the last of the sequence; whichever trigger fires resets the
counter to 0.  Stated as: the trace's per-step invocation flags equal the
spec-side cadence recurrence. -/
theorem c9_hybrid_cadence (lc : String → String → Int) (input : RouterFacadeInput)
    (hne : input.stepsForHybrid.getD [input.step] ≠ []) :
    (runHybrid lc input).map (fun r => r.trace.map (fun e => e.elkCost.isSome)) =
      some (cadenceSpecFlags (input.stepsForHybrid.getD [input.step])
        (max 1 ⌊input.hybridRescoreEveryAccepted.getD 10⌋)) := by
  unfold runHybrid cadenceSpecFlags
  rcases hsteps : input.stepsForHybrid.getD [input.step] with - | ⟨s0, rest⟩
  · exact absurd hsteps hne
  · simp only [Option.map_some']
    rw [hybridLoop_flags]
    simp

/-- C9 witness — 12 steps with the first 10 accepted, cadence 10, a precise
router attached to every step: the precise router fires exactly at the step
of the 10th acceptance (index 9, resetting the counter) and at the final
step (index 11). -/
theorem c9_witness :
    (runHybrid Router.codePointCompare c9Input).map
        (fun r => r.trace.map (fun e => e.elkCost.isSome)) =
      some (cadenceSpecFlags (c9Input.stepsForHybrid.getD [c9Input.step])
        (max 1 ⌊c9Input.hybridRescoreEveryAccepted.getD 10⌋)) ∧
    cadenceSpecFlags (c9Input.stepsForHybrid.getD [c9Input.step])
        (max 1 ⌊c9Input.hybridRescoreEveryAccepted.getD 10⌋) =
      [false, false, false, false, false, false, false, false, false, true,
        false, true] := by
  constructor
  · exact c9_hybrid_cadence Router.codePointCompare c9Input (by simp [c9Input, c9Steps])
  · have hevery : (max 1 ⌊c9Input.hybridRescoreEveryAccepted.getD 10⌋ : Int) = 10 := by
      simp [c9Input]
    have hsteps : c9Input.stepsForHybrid.getD [c9Input.step] = c9Steps := by
      simp [c9Input]
    rw [hevery, hsteps]
    decide

end FacadeTheorems
